import Mathlib

/-!
Verification of the tagua-style PHP parser excerpt (combinator layer,
primary-expression rules, function and parameter rules).

The development shallowly embeds the source rules:

* `src/source/macros.rs` — the `itag`, `keyword`, `first`,
  `fold_into_vector_many0` and `map_res_and_input` combinators;
* `src/source/rules/comments.rs` — the comment rules;
* `src/source/rules/expressions/primaries.rs` — primary expressions,
  arrays, intrinsics (`echo`, `list`, `unset`, `isset`, `empty`, `eval`,
  `exit`/`die`, `print`), anonymous functions;
* `src/source/rules/statements/mod.rs` and
  `src/source/rules/statements/function.rs` — `compound_statement`,
  `function`, `parameters`, `parameter`, `native_type`, `into_type`.

Machinery the repository keeps in files that are not part of the excerpt
(the position-tracked `Span` type, the nom-style result model, the `skip`
rule and the identifier/literal scanners) is modelled from the
specification; each such definition carries a doc comment starting with
"Modelled from the spec:".

Bytes are represented as `List Char` (the inputs under test are ASCII).
-/

namespace TaguaParser

/-- Modelled from the spec: a position-tracked input span. It wraps the
byte slice together with a byte offset and one-based line and column.
Two spans are equal iff bytes, offset, line and column all match. -/
structure Span where
  bytes : List Char
  offset : Nat
  line : Nat
  column : Nat
deriving DecidableEq, Repr

/-- The line-feed character. -/
def lfChar : Char := Char.ofNat 10

/-- The carriage-return character. -/
def crChar : Char := Char.ofNat 13

/-- The single-quote character. -/
def sqChar : Char := Char.ofNat 39

/-- The backslash character. -/
def bslash : Char := Char.ofNat 92

/-- The hash character. -/
def hashChar : Char := Char.ofNat 35

/-- The left curly bracket character. -/
def lcurly : Char := Char.ofNat 123

/-- The right curly bracket character. -/
def rcurly : Char := Char.ofNat 125

/-- Modelled from the spec: advancing a line/column position over one
consumed byte. A line feed bumps the line and resets the column to 1;
any other byte bumps the column. -/
def posAdv (p : Nat × Nat) (ch : Char) : Nat × Nat :=
  if ch = lfChar then (p.1 + 1, 1) else (p.1, p.2 + 1)

/-- Modelled from the spec: slicing a span at byte index `k`. The new
span starts `k` bytes further; its line/column are recomputed by
scanning the consumed prefix for newlines. -/
def Span.dropBytes (s : Span) (k : Nat) : Span :=
  let lc := (s.bytes.take k).foldl posAdv (s.line, s.column)
  ⟨s.bytes.drop k, s.offset + k, lc.1, lc.2⟩

/-- A span over the whole input buffer, at offset 0, line 1, column 1. -/
def mkSpan (l : List Char) : Span := ⟨l, 0, 1, 1⟩

/-- Error kinds of the result model: the generic nom-style kinds used by
the excerpt plus the custom sub-taxonomy (`ErrorKind::Custom(u32)`). -/
inductive ErrorKind where
  | Tag
  | Alt
  | MapRes
  | Many0
  | TakeUntilAndConsume
  | RegexpFind
  | Custom (code : Nat)
deriving DecidableEq, Repr

/-- Custom code of `ErrorKindCustom::Exclude` (macros.rs). -/
def eExclude : Nat := 0

/-- Custom code of `ErrorKindCustom::ITag` (macros.rs). -/
def eITag : Nat := 1

/-- Custom code of `IntrinsicError::ReservedExitCode` (primaries.rs). -/
def eReservedExitCode : Nat := 0

/-- Custom code of `IntrinsicError::OutOfRangeExitCode` (primaries.rs). -/
def eOutOfRangeExitCode : Nat := 1

/-- Custom code of `IntrinsicError::ListIsEmpty` (primaries.rs). -/
def eListIsEmpty : Nat := 2

/-- Custom code of `FunctionError::InvalidVariadicParameterPosition`
(function.rs). -/
def eInvalidVariadicParameterPosition : Nat := 0

/-- Custom code of `FunctionError::MultipleParametersWithSameName`
(function.rs). -/
def eMultipleParametersWithSameName : Nat := 1

/-- Marker for the `unreachable!()` branch of `into_type`: the branch is
modelled as a dead error branch so that we can prove it is never taken. -/
def eUnreachableIntoType : Nat := 4242

/-- Modelled from the spec: the tri-state parse result. `done` carries
the remaining input and the output; `error` carries an error kind and
the location (`Context::Code(span, kind)`); `incomplete` asks for more
bytes (`Needed::Size`). -/
inductive PResult (α : Type) where
  | done (remaining : Span) (output : α)
  | error (kind : ErrorKind) (location : Span)
  | incomplete (needed : Nat)
deriving Repr

/-- A parser over spans, in the style of the nom rules of the source. -/
def Parser (α : Type) : Type := Span → PResult α

/-- Sequencing of parsers: run `p`, feed its output and the remaining
input to `f`. Errors and incompleteness propagate unchanged (this is the
behaviour of the `do_parse!`/`preceded!`/`terminated!` chains). -/
def pbind {α β : Type} (p : Parser α) (f : α → Parser β) : Parser β :=
  fun s =>
    match p s with
    | .done i o => f o i
    | .error k e => .error k e
    | .incomplete n => .incomplete n

/-- Map a pure function over a parser output (the `rule => { mapper }`
form of `alt!`). -/
def pmap {α β : Type} (f : α → β) (p : Parser α) : Parser β :=
  fun s =>
    match p s with
    | .done i o => .done i (f o)
    | .error k e => .error k e
    | .incomplete n => .incomplete n

/-- The parser that succeeds without consuming, returning `v`. -/
def ppure {α : Type} (v : α) : Parser α := fun s => .done s v

/-- `preceded!`: run `p`, throw its output away, then run `q`. -/
def ppreceded {α β : Type} (p : Parser α) (q : Parser β) : Parser β :=
  pbind p (fun _ => q)

/-- `terminated!`: run `p`, then `q`, and return the output of `p`. -/
def pterminated {α β : Type} (p : Parser α) (q : Parser β) : Parser α :=
  pbind p (fun o => pbind q (fun _ => ppure o))

/-- `opt!`: an error becomes `none` without consuming input;
incompleteness propagates (nom 4 semantics). -/
def popt {α : Type} (p : Parser α) : Parser (Option α) :=
  fun s =>
    match p s with
    | .done i o => .done i (some o)
    | .error _ _ => .done s none
    | .incomplete n => .incomplete n

/-- Worker of `alt!`: try each rule in order; a branch error moves to
the next branch, incompleteness stops the alternation; when every branch
has failed the result is a generic `Alt` error at the original input. -/
def paltGo {α : Type} : List (Parser α) → Parser α
  | [], s => .error .Alt s
  | p :: ps, s =>
    match p s with
    | .done i o => .done i o
    | .error _ _ => paltGo ps s
    | .incomplete n => .incomplete n

/-- `alt!` over a list of branches. -/
def palt {α : Type} (ps : List (Parser α)) : Parser α := paltGo ps

/-- Worker of `alt_complete!`: like `alt!` but an incomplete branch is
treated as a failing branch. -/
def paltCompleteGo {α : Type} : List (Parser α) → Parser α
  | [], s => .error .Alt s
  | p :: ps, s =>
    match p s with
    | .done i o => .done i o
    | .error _ _ => paltCompleteGo ps s
    | .incomplete _ => paltCompleteGo ps s

/-- `alt_complete!` over a list of branches. -/
def paltComplete {α : Type} (ps : List (Parser α)) : Parser α := paltCompleteGo ps

/-- `map_res!`: map a `Result`-returning function over the output; a
mapper error becomes a generic `MapRes` error at the original input. -/
def pmapRes {α β : Type} (p : Parser α) (m : α → Except Unit β) : Parser β :=
  fun s =>
    match p s with
    | .done i o =>
      match m o with
      | .ok v => .done i v
      | .error _ => .error .MapRes s
    | .error k e => .error k e
    | .incomplete n => .incomplete n

/-- `map_res_and_input!` (macros.rs): like `map_res!` but the mapper
also receives the original input span. Note that a mapper error is
discarded (`Err(_)`) and replaced with a generic `MapRes` error at the
original input. -/
def pmapResAndInput {α β : Type}
    (p : Parser α) (m : α → Span → Except (ErrorKind × Span) β) : Parser β :=
  fun s =>
    match p s with
    | .done i o =>
      match m o s with
      | .ok v => .done i v
      | .error _ => .error .MapRes s
    | .error k e => .error k e
    | .incomplete n => .incomplete n

/-- Worker of `fold_into_vector_many0!`, with fuel bounded by the input
length. Following the nom loop: an empty input stops the loop before
the element parser runs; an element error stops the loop; incomplete
propagates; a non-consuming success is a `Many0` error. -/
def pfoldGo {α : Type} (p : Parser α) : Nat → Span → List α → PResult (List α)
  | 0, s, acc => .done s acc
  | n + 1, s, acc =>
    if s.bytes.length = 0 then .done s acc
    else
      match p s with
      | .done i o =>
        if i.bytes.length < s.bytes.length then pfoldGo p n i (acc ++ [o])
        else .error .Many0 s
      | .error _ _ => .done s acc
      | .incomplete k => .incomplete k

/-- `fold_into_vector_many0!`: apply `p` repeatedly, appending outputs
to the accumulator, stopping at the first failure. The shrink-to-fit of
the Rust code has no observable counterpart on lists. -/
def pfoldIntoVectorMany0 {α : Type} (p : Parser α) (init : List α) : Parser (List α) :=
  fun s => pfoldGo p (s.bytes.length + 1) s init

/-- Case-insensitive equality of two byte lists (used by
`compare_no_case`). -/
def ciEq (a b : List Char) : Bool :=
  a.map Char.toLower == b.map Char.toLower

/-- Outcome of a nom-style comparison. -/
inductive CmpOutcome where
  | ok
  | incomplete
  | mismatch
deriving DecidableEq, Repr

/-- Modelled from the spec: `compare` of the input against a literal.
Comparison looks at the overlap of the two sequences: a mismatching
overlap is an error, a matching overlap that is shorter than the literal
is incomplete, otherwise the match succeeds. -/
def compareBytes (input t : List Char) : CmpOutcome :=
  let m := min input.length t.length
  if input.take m ≠ t.take m then .mismatch
  else if m < t.length then .incomplete
  else .ok

/-- Modelled from the spec: `compare_no_case`, the case-insensitive
variant of `compareBytes`. -/
def compareNoCase (input t : List Char) : CmpOutcome :=
  let m := min input.length t.length
  if ¬ ciEq (input.take m) (t.take m) then .mismatch
  else if m < t.length then .incomplete
  else .ok

/-- `tag!`: exact prefix match. The consumed span holds the matched
bytes at the match position; a short matching input is incomplete with
the literal length; a mismatch is a `Tag` error at the input. -/
def ptag (t : List Char) : Parser Span :=
  fun s =>
    match compareBytes s.bytes t with
    | .ok => .done (s.dropBytes t.length) ⟨t, s.offset, s.line, s.column⟩
    | .incomplete => .incomplete t.length
    | .mismatch => .error .Tag s

/-- `itag!` (macros.rs): case-insensitive tag. On success the consumed
span holds the canonical requested bytes (not the as-typed casing) at
the match position; a short matching input is incomplete with the
requested length; a mismatch is the custom `ITag` error at the input. -/
def pitag (t : List Char) : Parser Span :=
  fun s =>
    match compareNoCase s.bytes t with
    | .ok => .done (s.dropBytes t.length) ⟨t, s.offset, s.line, s.column⟩
    | .incomplete => .incomplete t.length
    | .mismatch => .error (.Custom eITag) s

/-- `keyword!` (macros.rs): an alias of `itag!`. -/
def pkeyword (t : List Char) : Parser Span := pitag t

/-- Whitespace recognized by the skip rule. -/
def wsChar (c : Char) : Bool :=
  c = ' ' || c = '\t' || c = lfChar || c = crChar

/-- Length consumed by the single-line comment body after the `//` or
`#` marker: everything up to and including the first `\r\n`, `\r` or
`\n`, or up to the end of input (comments.rs, `comment_single_line`). -/
def lineBodyLen : List Char → Nat
  | [] => 0
  | c :: cs =>
    if c = lfChar then 1
    else if c = crChar then (if cs.head? = some lfChar then 2 else 1)
    else 1 + lineBodyLen cs

/-- Length up to and including the first `*/`, if any (comments.rs,
`take_until_and_consume!("*/")` of `comment_delimited`). -/
def untilStarSlash : List Char → Option Nat
  | [] => none
  | c :: cs =>
    if c = '*' then
      if cs.head? = some '/' then some 2
      else (untilStarSlash cs).map (· + 1)
    else (untilStarSlash cs).map (· + 1)

/-- Total length of a single-line comment starting at the head of the
byte list, if one starts there. -/
def lineCommentLen (l : List Char) : Option Nat :=
  if l.take 2 = ['/', '/'] then some (2 + lineBodyLen (l.drop 2))
  else if l.take 1 = [hashChar] then some (1 + lineBodyLen (l.drop 1))
  else none

/-- Total length of a delimited comment starting at the head of the
byte list, if a terminated one starts there. -/
def blockCommentLen (l : List Char) : Option Nat :=
  if l.take 2 = ['/', '*'] then (untilStarSlash (l.drop 2)).map (· + 2)
  else none

/-- One step of the skip rule: consume one whitespace byte or one whole
comment; `none` when neither matches (comment order follows comments.rs:
single-line comments are tried before delimited ones). -/
def skipStepLen (l : List Char) : Option Nat :=
  match l with
  | [] => none
  | c :: _ =>
    if wsChar c then some 1
    else
      match lineCommentLen l with
      | some k => some k
      | none => blockCommentLen l

/-- Worker of the skip count, with fuel bounded by the input length. -/
def skipCountGo : Nat → List Char → Nat
  | 0, _ => 0
  | n + 1, l =>
    match skipStepLen l with
    | some k => if k = 0 then 0 else k + skipCountGo n (l.drop k)
    | none => 0

/-- Modelled from the spec: the number of bytes the skip rule consumes
at the head of the byte list (whitespace plus comments, maximally). -/
def skipCount (l : List Char) : Nat := skipCountGo l.length l

/-- Modelled from the spec: the skip rule as a span transformer. It
never fails; it consumes the maximal run of whitespace and comments. -/
def skipSpan (s : Span) : Span := s.dropBytes (skipCount s.bytes)

/-- `first!` (macros.rs): apply the skip rule, then the wrapped rule. -/
def pfirst {α : Type} (p : Parser α) : Parser α :=
  fun s => p (skipSpan s)

end TaguaParser

namespace TaguaParser

/-! ## AST model

Modelled from the spec (the `ast` module is not part of the excerpt):
tagged-union node types produced by the rules. Boxes are dropped; the
`Token { value, span }` pairs of literals become explicit fields. -/

/-- Modelled from the spec: a variable node wrapping the identifier
span (without the leading dollar sign). -/
structure Variable where
  span : Span
deriving DecidableEq, Repr

/-- Modelled from the spec: qualified names. `Unqualified` is a single
identifier, `Qualified` a backslash-separated sequence, and
`FullyQualified` a sequence with a leading backslash. -/
inductive Name where
  | Unqualified (s : Span)
  | Qualified (parts : List Span)
  | FullyQualified (parts : List Span)
deriving DecidableEq, Repr

/-- Modelled from the spec: literal values. The excerpt's claims only
exercise decimal integers and single-quoted strings, so only these two
literal forms are embedded. -/
inductive Literal where
  | Integer (value : Int) (span : Span)
  | Str (value : List Char) (span : Span)
deriving DecidableEq, Repr

/-- Relative scopes of a scope-resolution qualifier. -/
inductive RelativeScope where
  | ToSelf
  | ToParent
  | ToStatic
deriving DecidableEq, Repr

/-- Declaration scope of an anonymous function. -/
inductive DeclarationScope where
  | Dynamic
  | Static
deriving DecidableEq, Repr

/-- The four type variants of `Ty` (function.rs/ast): copy or reference,
each plain or nullable; the nullable variants always carry a name. -/
inductive Ty where
  | Copy (n : Option Name)
  | Reference (n : Option Name)
  | NullableCopy (n : Name)
  | NullableReference (n : Name)
deriving DecidableEq, Repr

mutual

/-- Modelled from the spec: expression nodes. -/
inductive Expression where
  | Literal (l : TaguaParser.Literal)
  | Variable (v : TaguaParser.Variable)
  | Name (n : TaguaParser.Name)
  | Array (pairs : List (Option Expression × Expression))
  | Reference (e : Expression)
  | Echo (es : List Expression)
  | List (items : List (Option (Option Expression × Expression)))
  | Unset (vs : List TaguaParser.Variable)
  | Isset (vs : List TaguaParser.Variable)
  | Empty (e : Expression)
  | Eval (e : Expression)
  | Exit (e : Option Expression)
  | Print (e : Expression)
  | AnonymousFunction (f : AnonymousFunction)
  | ClassConstantAccess (scope : ScopeResolver) (name : Span)

/-- Scope-resolution qualifier of a class-constant access. -/
inductive ScopeResolver where
  | ByRelative (s : RelativeScope)
  | ByName (n : TaguaParser.Name)
  | ByExpression (e : DereferencableExpression)

/-- Dereferencable expressions. -/
inductive DereferencableExpression where
  | Variable (v : TaguaParser.Variable)
  | Expression (e : TaguaParser.Expression)
  | Array (e : TaguaParser.Expression)
  | Str (l : TaguaParser.Literal)

/-- Anonymous-function node. -/
inductive AnonymousFunction where
  | mk (declarationScope : DeclarationScope) (inputs : Arity)
       (output : Ty) (enclosingScope : Option (List Expression))
       (body : List Statement)

/-- Arity of a parameter list: `Constant` (zero parameters), `Finite`
or `Infinite` (variadic). -/
inductive Arity where
  | Constant
  | Finite (ps : List Parameter)
  | Infinite (ps : List Parameter)

/-- A single declared parameter: type, name, optional default value. -/
inductive Parameter where
  | mk (ty : Ty) (name : TaguaParser.Variable) (value : Option Expression)

/-- Statement nodes of the excerpt. -/
inductive Statement where
  | Return
  | Function (f : Function)

/-- Function-declaration node. -/
inductive Function where
  | mk (name : Span) (inputs : Arity) (output : Ty) (body : List Statement)

end

/-- Name of a parameter. -/
def Parameter.name : Parameter → Variable
  | .mk _ n _ => n

/-- Type of a parameter. -/
def Parameter.ty : Parameter → Ty
  | .mk t _ _ => t

/-- Default value of a parameter. -/
def Parameter.value : Parameter → Option Expression
  | .mk _ _ v => v

/-- Body of a function node. -/
def Function.body : Function → List Statement
  | .mk _ _ _ b => b

/-- Inputs of a function node. -/
def Function.inputs : Function → Arity
  | .mk _ i _ _ => i

/-- Body of an anonymous-function node. -/
def AnonymousFunction.body : AnonymousFunction → List Statement
  | .mk _ _ _ _ b => b

/-! ## Token vocabulary -/

/-- Punctuation token `(`. -/
def tLPAREN : List Char := ("(").data

/-- Punctuation token `)`. -/
def tRPAREN : List Char := (")").data

/-- Punctuation token `[`. -/
def tLBRACKET : List Char := ("[").data

/-- Punctuation token `]`. -/
def tRBRACKET : List Char := ("]").data

/-- Punctuation token `,`. -/
def tCOMMA : List Char := (",").data

/-- Punctuation token `=>`. -/
def tMAP : List Char := ("=>").data

/-- Punctuation token `&`. -/
def tREFERENCE : List Char := ("&").data

/-- Punctuation token `...`. -/
def tELLIPSIS : List Char := ("...").data

/-- Punctuation token `::`. -/
def tSTATICCALL : List Char := ("::").data

/-- Punctuation token `?`. -/
def tNULLABLE : List Char := ("?").data

/-- Punctuation token `=`. -/
def tASSIGN : List Char := ("=").data

/-- Punctuation token `:`. -/
def tFUNCTIONOUTPUT : List Char := (":").data

/-- Curly bracket tokens. -/
def tLCURLY : List Char := [lcurly]

/-- Curly bracket tokens. -/
def tRCURLY : List Char := [rcurly]

/-- Keyword byte sequences consumed by the excerpt. -/
def kFUNCTION : List Char := ("function").data

/-- Keyword `echo`. -/
def kECHO : List Char := ("echo").data

/-- Keyword `list`. -/
def kLIST : List Char := ("list").data

/-- Keyword `unset`. -/
def kUNSET : List Char := ("unset").data

/-- Keyword `isset`. -/
def kISSET : List Char := ("isset").data

/-- Keyword `empty`. -/
def kEMPTY : List Char := ("empty").data

/-- Keyword `eval`. -/
def kEVAL : List Char := ("eval").data

/-- Keyword `exit`. -/
def kEXIT : List Char := ("exit").data

/-- Keyword `die`. -/
def kDIE : List Char := ("die").data

/-- Keyword `print`. -/
def kPRINT : List Char := ("print").data

/-- Keyword `static`. -/
def kSTATIC : List Char := ("static").data

/-- Keyword `use`. -/
def kUSE : List Char := ("use").data

/-- Keyword `array`. -/
def kARRAY : List Char := ("array").data

/-- Keyword `self`. -/
def kSELF : List Char := ("self").data

/-- Keyword `parent`. -/
def kPARENT : List Char := ("parent").data

/-! ## Identifier, name, variable and literal scanners

Modelled from the spec: these scanners are external collaborators of
the excerpt ("Identifier/name scanning (`name`, `qualified_name`,
`variable`) and literal scanning (`literal`, `string_single_quoted`)
are external collaborators whose contracts this core depends on"). -/

/-- First character of an identifier. -/
def identHeadChar (c : Char) : Bool := c.isAlpha || c = '_'

/-- Subsequent character of an identifier. -/
def identChar (c : Char) : Bool := c.isAlphanum || c = '_'

/-- Modelled from the spec: scan one identifier; fails with a
`RegexpFind` error when the input does not start with one. -/
def identScanP : Parser Span := fun s =>
  match s.bytes with
  | [] => .error .RegexpFind s
  | c :: rest =>
    if identHeadChar c then
      let n := 1 + (rest.takeWhile identChar).length
      .done (s.dropBytes n) ⟨s.bytes.take n, s.offset, s.line, s.column⟩
    else .error .RegexpFind s

/-- Reserved words excluded from bare names. The repository's tests
(primaries.rs) require `name` to reject the keywords of the token
vocabulary, e.g. `exit(255)` must not parse as a constant access. -/
def keywordsList : List (List Char) :=
  [kFUNCTION, kECHO, kLIST, kUNSET, kISSET, kEMPTY, kEVAL, kEXIT, kDIE,
   kPRINT, kSTATIC, kUSE, kARRAY, kSELF, kPARENT, ("return").data,
   ("bool").data, ("callable").data, ("float").data, ("int").data,
   ("iterable").data, ("string").data]

/-- Modelled from the spec: the `name` rule; an identifier that is not
a reserved word (the exclusion is reported with the custom `Exclude`
error kind, mirroring the `exclude!` combinator). -/
def nameP : Parser Span := fun s =>
  match identScanP s with
  | .done i o =>
    if keywordsList.contains (o.bytes.map Char.toLower) then
      .error (.Custom eExclude) s
    else .done i o
  | .error k e => .error k e
  | .incomplete n => .incomplete n

/-- Modelled from the spec: the `variable` rule, a `$` sign followed by
an identifier; the node wraps the identifier span without the `$`. -/
def variableP : Parser Variable := fun s =>
  match ptag (("$").data) s with
  | .done i _ =>
    (match identScanP i with
     | .done i2 o => .done i2 ⟨o⟩
     | .error k e => .error k e
     | .incomplete n => .incomplete n)
  | .error k e => .error k e
  | .incomplete n => .incomplete n

/-- Classification of a qualified name into the three `Name` variants. -/
def classifyName (lead : Bool) (parts : List Span) : Name :=
  if lead then .FullyQualified parts
  else
    match parts with
    | [p] => .Unqualified p
    | _ => .Qualified parts

/-- Modelled from the spec: the `qualified_name` rule; an optional
leading backslash, then one or more backslash-separated names. -/
def qualifiedNameP : Parser Name :=
  pbind (popt (ptag [bslash])) fun lead =>
  pbind nameP fun headName =>
  pbind (pfoldIntoVectorMany0 (ppreceded (ptag [bslash]) nameP) [headName]) fun parts =>
  ppure (classifyName lead.isSome parts)

/-- Decimal value of a digit list. -/
def decDigits (l : List Char) : Int :=
  l.foldl (fun acc c => acc * 10 + (Int.ofNat (c.toNat - 48))) 0

/-- Modelled from the spec: scan a decimal integer literal. -/
def integerP : Parser Literal := fun s =>
  let ds := s.bytes.takeWhile Char.isDigit
  if ds.length = 0 then .error .RegexpFind s
  else
    .done (s.dropBytes ds.length)
      (.Integer (decDigits ds) ⟨ds, s.offset, s.line, s.column⟩)

/-- Decoded body of a single-quoted string: returns the decoded value
and the number of bytes consumed, including the closing quote; `none`
when the string is unterminated. A backslash escapes a quote or a
backslash and is otherwise kept literally. -/
def squoteBody : List Char → Option (List Char × Nat)
  | [] => none
  | c :: cs =>
    if c = sqChar then some ([], 1)
    else if c = bslash then
      match cs with
      | d :: ds =>
        if d = sqChar || d = bslash then
          (squoteBody ds).map (fun r => (d :: r.1, r.2 + 2))
        else (squoteBody ds).map (fun r => (c :: d :: r.1, r.2 + 2))
      | [] => none
    else (squoteBody cs).map (fun r => (c :: r.1, r.2 + 1))

/-- Modelled from the spec: the `string_single_quoted` rule. The token
span covers the quotes; the value is the unescaped content. -/
def stringSingleQuotedP : Parser Literal := fun s =>
  match s.bytes with
  | [] => .incomplete 1
  | c :: cs =>
    if c = sqChar then
      match squoteBody cs with
      | some (v, n) =>
        .done (s.dropBytes (n + 1))
          (.Str v ⟨s.bytes.take (n + 1), s.offset, s.line, s.column⟩)
      | none => .error .Tag s
    else .error .Tag s

/-- Modelled from the spec: the `literal` rule, restricted to the forms
the claims exercise (decimal integers and single-quoted strings). -/
def literalP : Parser Literal :=
  palt [integerP, stringSingleQuotedP]

/-- The `native_type` rule (function.rs): `alt_complete!` over the
seven native type tags, mapped to a fully-qualified name. -/
def nativeTypeP : Parser Name :=
  pmapRes
    (paltComplete
      [ptag kARRAY, ptag (("bool").data), ptag (("callable").data),
       ptag (("float").data), ptag (("int").data), ptag (("iterable").data),
       ptag (("string").data)])
    (fun sp => .ok (Name.FullyQualified [sp]))

/-- The `relative_scope` rule (primaries.rs). -/
def relativeScopeP : Parser RelativeScope :=
  palt
    [pmap (fun _ => RelativeScope.ToSelf) (ptag kSELF),
     pmap (fun _ => RelativeScope.ToParent) (ptag kPARENT),
     pmap (fun _ => RelativeScope.ToStatic) (ptag kSTATIC)]

/-- The `compound_statement` rule (statements/mod.rs): `{`, an optional
literal `return;`, then `}`; the output is always the fixed body
`vec![Statement::Return]`. -/
def compoundStatementP : Parser (List Statement) :=
  pmapRes
    (pterminated
      (ppreceded (ptag tLCURLY) (popt (pfirst (ptag (("return;").data)))))
      (pfirst (ptag tRCURLY)))
    (fun _ => .ok [Statement.Return])

end TaguaParser

namespace TaguaParser

/-! ## Pure mappers of the rules -/

/-- `into_type` (function.rs): collapse the typed/nullable/reference
flags into the four `Ty` variants. The `none` result models the
`unreachable!()` wildcard arm (nullable with no type name). -/
def intoType (ty : Option Name) (isNullable isRef : Bool) : Option Ty :=
  match ty, isNullable, isRef with
  | some t, true, false => some (.NullableCopy t)
  | some t, true, true => some (.NullableReference t)
  | t, false, false => some (.Copy t)
  | t, false, true => some (.Reference t)
  | none, true, _ => none

/-- `into_parameter` (function.rs). -/
def intoParameter (ty : Ty) (isVariadic : Bool) (name : Variable)
    (defaultValue : Option Expression) : Parameter × Bool :=
  (.mk ty name defaultValue, isVariadic)

/-- `into_function` (function.rs). -/
def intoFunction (name : Span) (inputs : Arity) (output : Ty)
    (body : List Statement) : Statement :=
  .Function (.mk name inputs output body)

/-- `into_anonymous_function` (primaries.rs). -/
def intoAnonymousFunction (declarationScope : DeclarationScope)
    (outputIsARef : Bool) (inputs : Arity) (outputType : Option Name)
    (enclosingScope : Option (List Expression)) (body : List Statement) :
    Expression :=
  let output := if outputIsARef then Ty.Reference outputType else Ty.Copy outputType
  .AnonymousFunction (.mk declarationScope inputs output enclosingScope body)

/-- `exit_mapper` (primaries.rs): reject a literal-integer argument
equal to 255 (reserved) or greater than 255 (out of range), otherwise
wrap the optional argument in an `Exit` node. -/
def exitMapper (e : Option Expression) (input : Span) :
    Except (ErrorKind × Span) Expression :=
  match e with
  | some expr =>
    match expr with
    | .Literal (.Integer code _) =>
      if code = 255 then .error (.Custom eReservedExitCode, input)
      else if code > 255 then .error (.Custom eOutOfRangeExitCode, input)
      else .ok (.Exit (some expr))
    | _ => .ok (.Exit (some expr))
  | none => .ok (.Exit none)

/-- `intrinsic_list_mapper` (primaries.rs): a parsed list whose items
are all holes (`None`) is rejected with the custom `ListIsEmpty` code. -/
def intrinsicListMapper (e : Expression) (input : Span) :
    Except (ErrorKind × Span) Expression :=
  match e with
  | .List items =>
    if items.any (·.isSome) then .ok (.List items)
    else .error (.Custom eListIsEmpty, input)
  | _ => .ok e

/-- Name equality used by the duplicate-parameter check: the
repository's tests require two `$x` parameters at different offsets to
collide, so the comparison is on the identifier bytes. -/
def sameName (a b : Parameter) : Bool :=
  a.name.span.bytes == b.name.span.bytes

/-- The loop of `parameters_mapper` (function.rs) over every pair but
the last: a variadic parameter there is an invalid position; a name
already seen is a duplicate. -/
def paramsLoop (input : Span) :
    List (Parameter × Bool) → List Parameter →
    Except (ErrorKind × Span) (List Parameter)
  | [], acc => .ok acc
  | (p, isVariadic) :: rest, acc =>
    if isVariadic then
      .error (.Custom eInvalidVariadicParameterPosition, input)
    else if acc.any (fun q => sameName q p) then
      .error (.Custom eMultipleParametersWithSameName, input)
    else paramsLoop input rest (acc ++ [p])

/-- `parameters_mapper` (function.rs): convert the raw pair list into
an `Arity`, validating the variadic position and name uniqueness in one
pass; the last pair decides between `Finite` and `Infinite`. -/
def parametersMapper (pairs : Option (List (Parameter × Bool)))
    (input : Span) : Except (ErrorKind × Span) Arity :=
  match pairs with
  | none => .ok .Constant
  | some pairs =>
    match pairs.getLast? with
    | none => .ok .Constant
    | some (lastP, lastVariadic) =>
      match paramsLoop input pairs.dropLast [] with
      | .error e => .error e
      | .ok params =>
        if params.any (fun q => sameName q lastP) then
          .error (.Custom eMultipleParametersWithSameName, input)
        else if lastVariadic then .ok (.Infinite (params ++ [lastP]))
        else .ok (.Finite (params ++ [lastP]))

/-- The type prefix of the `parameter` rule (function.rs): an optional
`?`, then a native type or a qualified name; the constructed pair
always carries `Some(type_name)`. -/
def parameterTypePairP : Parser (Option Name × Option Span) :=
  pbind (popt (ptag tNULLABLE)) fun isNullable =>
  pbind (palt [pfirst nativeTypeP, pfirst qualifiedNameP]) fun typeName =>
  ppure ((some typeName : Option Name), isNullable)

/-- `anonymous_function_use_list_item` (primaries.rs). -/
def anonymousFunctionUseListItemP : Parser Expression :=
  pbind (popt (pfirst (ptag tREFERENCE))) fun ref =>
  pbind (pfirst variableP) fun nm =>
  ppure (if ref.isSome then Expression.Reference (.Variable nm) else .Variable nm)

/-- The `constant_access` rule (primaries.rs): an alias of
`qualified_name`. -/
def constantAccessP : Parser Name := qualifiedNameP

/-! ## The grammar rules

Fuel-indexed mutual definitions: every cross-rule call spends one unit
of fuel, and exhausted fuel fails with a generic `Alt` error (the
concrete evaluations below always carry enough fuel for this branch to
stay dead). -/

mutual

/-- Modelled from the spec: the `expression` rule of the excerpt
dispatches to `primary` (the expressions module around it is not part
of the excerpt; every primaries test expects
`expression(input) = primary(input)`). -/
def expressionP : Nat → Parser Expression
  | 0 => fun s => .error .Alt s
  | n + 1 => primaryP n

/-- The `primary` rule (primaries.rs): ordered `alt_complete!` over the
primary expression forms. -/
def primaryP : Nat → Parser Expression
  | 0 => fun s => .error .Alt s
  | n + 1 =>
    paltComplete
      [classConstantAccessP n,
       pmap Expression.Variable variableP,
       pmap Expression.Name constantAccessP,
       pmap Expression.Literal literalP,
       arrayP n,
       intrinsicP n,
       anonymousFunctionP n,
       ppreceded (ptag tLPAREN)
         (pterminated (pfirst (expressionP n)) (pfirst (ptag tRPAREN)))]

/-- The `class_constant_access` rule (primaries.rs). -/
def classConstantAccessP : Nat → Parser Expression
  | 0 => fun s => .error .Alt s
  | n + 1 =>
    pbind (pterminated (scopeResolutionQualifierP n) (pfirst (ptag tSTATICCALL))) fun scope =>
    pbind (pfirst nameP) fun nm =>
    ppure (Expression.ClassConstantAccess scope nm)

/-- The `scope_resolution_qualifier` rule (primaries.rs). -/
def scopeResolutionQualifierP : Nat → Parser ScopeResolver
  | 0 => fun s => .error .Alt s
  | n + 1 =>
    palt
      [pmap ScopeResolver.ByRelative relativeScopeP,
       pmap ScopeResolver.ByName qualifiedNameP,
       pmap ScopeResolver.ByExpression (dereferencableExpressionP n)]

/-- The `dereferencable_expression` rule (primaries.rs). -/
def dereferencableExpressionP : Nat → Parser DereferencableExpression
  | 0 => fun s => .error .Alt s
  | n + 1 =>
    palt
      [pmap DereferencableExpression.Variable variableP,
       pmap DereferencableExpression.Expression
         (ppreceded (ptag tLPAREN)
           (pterminated (pfirst (expressionP n)) (pfirst (ptag tRPAREN)))),
       pmap DereferencableExpression.Array (arrayP n),
       pmap DereferencableExpression.Str stringSingleQuotedP]

/-- The `array` rule (primaries.rs): both the `[...]` and the
`array(...)` surface syntaxes. -/
def arrayP : Nat → Parser Expression
  | 0 => fun s => .error .Alt s
  | n + 1 =>
    palt
      [ppreceded (ptag tLBRACKET)
        (palt
          [pmapRes (pfirst (ptag tRBRACKET)) (fun _ => .ok (Expression.Array [])),
           pterminated (arrayPairsP n) (pfirst (ptag tRBRACKET))]),
       ppreceded (ppreceded (pkeyword kARRAY) (pfirst (ptag tLPAREN)))
        (palt
          [pmapRes (pfirst (ptag tRPAREN)) (fun _ => .ok (Expression.Array [])),
           pterminated (arrayPairsP n) (pfirst (ptag tRPAREN))])]

/-- The `array_pairs` rule (primaries.rs): one pair, then
comma-prefixed pairs, then an optional trailing comma. -/
def arrayPairsP : Nat → Parser Expression
  | 0 => fun s => .error .Alt s
  | n + 1 =>
    pbind (pmapRes (pfirst (arrayPairP n)) (fun x => .ok [x])) fun acc =>
    pbind (pfoldIntoVectorMany0
            (ppreceded (pfirst (ptag tCOMMA)) (pfirst (arrayPairP n))) acc) fun result =>
    pbind (popt (pfirst (ptag tCOMMA))) fun _ =>
    ppure (Expression.Array result)

/-- The `array_pair` rule (primaries.rs): an optional `key =>` prefix,
then a value optionally marked by-reference with `&`. -/
def arrayPairP : Nat → Parser (Option Expression × Expression)
  | 0 => fun s => .error .Alt s
  | n + 1 =>
    pbind (popt (pterminated (expressionP n) (pfirst (ptag tMAP)))) fun key =>
    pbind (palt
            [pmapRes (ppreceded (pfirst (ptag tREFERENCE)) (pfirst (expressionP n)))
              (fun e => .ok (Expression.Reference e)),
             pfirst (expressionP n)]) fun value =>
    ppure (key, value)

/-- The `intrinsic` rule (primaries.rs). -/
def intrinsicP : Nat → Parser Expression
  | 0 => fun s => .error .Alt s
  | n + 1 => palt [intrinsicConstructP n, intrinsicOperatorP n]

/-- The `intrinsic_construct` rule (primaries.rs). -/
def intrinsicConstructP : Nat → Parser Expression
  | 0 => fun s => .error .Alt s
  | n + 1 => palt [intrinsicEchoP n, intrinsicListP n, intrinsicUnsetP n]

/-- The `intrinsic_operator` rule (primaries.rs). -/
def intrinsicOperatorP : Nat → Parser Expression
  | 0 => fun s => .error .Alt s
  | n + 1 =>
    palt
      [intrinsicEmptyP n, intrinsicEvalP n, intrinsicExitP n,
       intrinsicIssetP n, intrinsicPrintP n]

/-- The `intrinsic_echo` rule (primaries.rs). -/
def intrinsicEchoP : Nat → Parser Expression
  | 0 => fun s => .error .Alt s
  | n + 1 =>
    pbind (pmapRes (ppreceded (pkeyword kECHO) (pfirst (expressionP n)))
            (fun e => .ok [e])) fun acc =>
    pbind (pfoldIntoVectorMany0
            (ppreceded (pfirst (ptag tCOMMA)) (pfirst (expressionP n))) acc) fun result =>
    ppure (Expression.Echo result)

/-- The `intrinsic_list` rule (primaries.rs): keyed or unkeyed items in
parentheses, validated by `intrinsic_list_mapper` through
`map_res_and_input!`. -/
def intrinsicListP : Nat → Parser Expression
  | 0 => fun s => .error .Alt s
  | n + 1 =>
    pmapResAndInput
      (ppreceded (ppreceded (pkeyword kLIST) (pfirst (ptag tLPAREN)))
        (pterminated (palt [intrinsicKeyedListP n, intrinsicUnkeyedListP n])
          (pfirst (ptag tRPAREN))))
      intrinsicListMapper

/-- The `intrinsic_keyed_list` rule (primaries.rs). -/
def intrinsicKeyedListP : Nat → Parser Expression
  | 0 => fun s => .error .Alt s
  | n + 1 =>
    pbind (pmapRes (pfirst (intrinsicKeyedListItemP n)) (fun x => .ok [x])) fun acc =>
    pbind (pfoldIntoVectorMany0
            (ppreceded (pfirst (ptag tCOMMA)) (pfirst (intrinsicKeyedListItemP n)))
            acc) fun result =>
    pbind (popt (pfirst (ptag tCOMMA))) fun _ =>
    ppure (Expression.List result)

/-- The `intrinsic_unkeyed_list` rule (primaries.rs): items are
optional, which represents the holes. -/
def intrinsicUnkeyedListP : Nat → Parser Expression
  | 0 => fun s => .error .Alt s
  | n + 1 =>
    pbind (pmapRes (popt (pfirst (intrinsicUnkeyedListItemP n))) (fun x => .ok [x])) fun acc =>
    pbind (pfoldIntoVectorMany0
            (ppreceded (pfirst (ptag tCOMMA)) (popt (pfirst (intrinsicUnkeyedListItemP n))))
            acc) fun result =>
    ppure (Expression.List result)

/-- The `intrinsic_keyed_list_item` rule (primaries.rs). -/
def intrinsicKeyedListItemP : Nat → Parser (Option (Option Expression × Expression))
  | 0 => fun s => .error .Alt s
  | n + 1 =>
    pbind (pterminated (expressionP n) (pfirst (ptag tMAP))) fun key =>
    pbind (pfirst (expressionP n)) fun value =>
    ppure (some (some key, value))

/-- The `intrinsic_unkeyed_list_item` rule (primaries.rs). -/
def intrinsicUnkeyedListItemP : Nat → Parser (Option Expression × Expression)
  | 0 => fun s => .error .Alt s
  | n + 1 => pmap (fun v => ((none : Option Expression), v)) (expressionP n)

/-- The `intrinsic_unset` rule (primaries.rs): one or more variables in
parentheses. -/
def intrinsicUnsetP : Nat → Parser Expression
  | 0 => fun s => .error .Alt s
  | _ + 1 =>
    pbind (pmapRes
            (ppreceded (pkeyword kUNSET)
              (ppreceded (pfirst (ptag tLPAREN)) (pfirst variableP)))
            (fun v => .ok [v])) fun acc =>
    pbind (pterminated
            (pfoldIntoVectorMany0
              (ppreceded (pfirst (ptag tCOMMA)) (pfirst variableP)) acc)
            (pfirst (ptag tRPAREN))) fun result =>
    ppure (Expression.Unset result)

/-- The `intrinsic_empty` rule (primaries.rs). -/
def intrinsicEmptyP : Nat → Parser Expression
  | 0 => fun s => .error .Alt s
  | n + 1 =>
    pmapRes
      (ppreceded (pkeyword kEMPTY)
        (ppreceded (pfirst (ptag tLPAREN))
          (pterminated (pfirst (expressionP n)) (pfirst (ptag tRPAREN)))))
      (fun e => .ok (Expression.Empty e))

/-- The `intrinsic_eval` rule (primaries.rs). -/
def intrinsicEvalP : Nat → Parser Expression
  | 0 => fun s => .error .Alt s
  | n + 1 =>
    pmapRes
      (ppreceded (pkeyword kEVAL)
        (ppreceded (pfirst (ptag tLPAREN))
          (pterminated (pfirst (expressionP n)) (pfirst (ptag tRPAREN)))))
      (fun e => .ok (Expression.Eval e))

/-- The `intrinsic_exit` rule (primaries.rs): `exit` or `die`, an
optional parenthesized argument, validated by `exit_mapper` through
`map_res_and_input!`. -/
def intrinsicExitP : Nat → Parser Expression
  | 0 => fun s => .error .Alt s
  | n + 1 =>
    pmapResAndInput
      (ppreceded (palt [pkeyword kEXIT, pkeyword kDIE])
        (popt (ppreceded (pfirst (ptag tLPAREN))
          (pterminated (pfirst (expressionP n)) (pfirst (ptag tRPAREN))))))
      exitMapper

/-- The `intrinsic_isset` rule (primaries.rs). -/
def intrinsicIssetP : Nat → Parser Expression
  | 0 => fun s => .error .Alt s
  | _ + 1 =>
    pbind (pmapRes
            (ppreceded (pkeyword kISSET)
              (ppreceded (pfirst (ptag tLPAREN)) (pfirst variableP)))
            (fun v => .ok [v])) fun acc =>
    pbind (pterminated
            (pfoldIntoVectorMany0
              (ppreceded (pfirst (ptag tCOMMA)) (pfirst variableP)) acc)
            (pfirst (ptag tRPAREN))) fun result =>
    ppure (Expression.Isset result)

/-- The `intrinsic_print` rule (primaries.rs). -/
def intrinsicPrintP : Nat → Parser Expression
  | 0 => fun s => .error .Alt s
  | n + 1 =>
    pmapRes (ppreceded (pkeyword kPRINT) (pfirst (expressionP n)))
      (fun e => .ok (Expression.Print e))

/-- The `anonymous_function` rule (primaries.rs). -/
def anonymousFunctionP : Nat → Parser Expression
  | 0 => fun s => .error .Alt s
  | n + 1 =>
    pbind (popt (pkeyword kSTATIC)) fun staticScope =>
    pbind (pfirst (pkeyword kFUNCTION)) fun _ =>
    pbind (popt (pfirst (ptag tREFERENCE))) fun outRef =>
    pbind (pfirst (parametersP n)) fun inputs =>
    pbind (popt (pfirst (anonymousFunctionUseP n))) fun enclosing =>
    pbind (popt (ppreceded (pfirst (ptag tFUNCTIONOUTPUT))
            (palt [pfirst nativeTypeP, pfirst qualifiedNameP]))) fun outputType =>
    pbind (pfirst compoundStatementP) fun body =>
    ppure
      (intoAnonymousFunction
        (match staticScope with
         | some _ => .Static
         | none => .Dynamic)
        outRef.isSome inputs outputType enclosing body)

/-- The `anonymous_function_use` rule (primaries.rs). -/
def anonymousFunctionUseP : Nat → Parser (List Expression)
  | 0 => fun s => .error .Alt s
  | n + 1 =>
    pmapRes
      (pterminated
        (ppreceded (pkeyword kUSE)
          (ppreceded (pfirst (ptag tLPAREN))
            (popt (pfirst (anonymousFunctionUseListP n)))))
        (pfirst (ptag tRPAREN)))
      (fun el => .ok (el.getD []))

/-- The `anonymous_function_use_list` rule (primaries.rs). -/
def anonymousFunctionUseListP : Nat → Parser (List Expression)
  | 0 => fun s => .error .Alt s
  | _ + 1 =>
    pbind (pmapRes anonymousFunctionUseListItemP (fun x => .ok [x])) fun acc =>
    pfoldIntoVectorMany0
      (ppreceded (pfirst (ptag tCOMMA)) (pfirst anonymousFunctionUseListItemP)) acc

/-- The `parameters` rule (function.rs): a parenthesized, optional,
comma-separated pair list, post-processed by `parameters_mapper`
through `map_res_and_input!`. -/
def parametersP : Nat → Parser Arity
  | 0 => fun s => .error .Alt s
  | n + 1 =>
    pmapResAndInput
      (pterminated
        (ppreceded (ptag tLPAREN)
          (popt
            (pbind (pmapRes (pfirst (parameterP n)) (fun x => .ok [x])) fun acc =>
             pfoldIntoVectorMany0
               (ppreceded (pfirst (ptag tCOMMA)) (pfirst (parameterP n))) acc)))
        (pfirst (ptag tRPAREN)))
      parametersMapper

/-- The `parameter` rule (function.rs): an optional type (with optional
leading `?`), optional `&`, optional `...`, a variable and an optional
constant default value. The final construction step calls `into_type`;
its `none` result (the `unreachable!()` arm) is modelled as a dead
error branch. -/
def parameterP : Nat → Parser (Parameter × Bool)
  | 0 => fun s => .error .Alt s
  | n + 1 =>
    pbind (popt parameterTypePairP) fun typePair =>
    pbind (popt (pfirst (ptag tREFERENCE))) fun isRef =>
    pbind (popt (pfirst (ptag tELLIPSIS))) fun isVariadic =>
    pbind (pfirst variableP) fun nm =>
    pbind (popt (ppreceded (pfirst (ptag tASSIGN))
            (pfirst (constantExpressionP n)))) fun dv =>
    fun s =>
      let tp := typePair.getD (none, none)
      match intoType tp.1 tp.2.isSome isRef.isSome with
      | some ty => .done s (intoParameter ty isVariadic.isSome nm dv)
      | none => .error (.Custom eUnreachableIntoType) s

/-- The `constant_expression` rule (constant.rs): a literal or an
array. -/
def constantExpressionP : Nat → Parser Expression
  | 0 => fun s => .error .Alt s
  | n + 1 => palt [pmap Expression.Literal literalP, arrayP n]

/-- The `function` rule (function.rs). -/
def functionP : Nat → Parser Statement
  | 0 => fun s => .error .Alt s
  | n + 1 =>
    pbind (pfirst (pkeyword kFUNCTION)) fun _ =>
    pbind (popt (pfirst (ptag tREFERENCE))) fun outRef =>
    pbind (pfirst nameP) fun nm =>
    pbind (pfirst (parametersP n)) fun inputs =>
    pbind (popt
            (pbind (pfirst (ptag tFUNCTIONOUTPUT)) fun _ =>
             pbind (popt (pfirst (ptag tNULLABLE))) fun outNullable =>
             pbind (palt [pfirst nativeTypeP, pfirst qualifiedNameP]) fun outName =>
             fun s =>
               match intoType (some outName) outNullable.isSome outRef.isSome with
               | some ty => .done s ty
               | none => .error (.Custom eUnreachableIntoType) s)) fun output =>
    pbind (pfirst compoundStatementP) fun body =>
    ppure
      (intoFunction nm inputs
        (output.getD (if outRef.isSome then Ty.Reference none else Ty.Copy none))
        body)

/-- The `statement` rule (statements/mod.rs): `alt!` over the single
`function` branch. -/
def statementP : Nat → Parser Statement
  | 0 => fun s => .error .Alt s
  | n + 1 => palt [functionP n]

end

end TaguaParser

namespace TaguaParser

/-! ## Derived definitions used by the verification -/

/-- Pairwise-distinct parameter names (in the byte-comparison sense of
the duplicate check). -/
def distinctNames (ps : List Parameter) : Prop :=
  List.Pairwise (fun a b => sameName a b = false) ps

/-- Result equivalence up to span positions: same outcome constructor,
same remaining bytes and error location bytes, with outputs related by
`E`. -/
def ResultRel {α : Type} (E : α → α → Prop) : PResult α → PResult α → Prop
  | .done i o, .done j p => i.bytes = j.bytes ∧ E o p
  | .error k l, .error k2 l2 => k = k2 ∧ l.bytes = l2.bytes
  | .incomplete n, .incomplete m => n = m
  | _, _ => False

/-- A rule is position-uniform when runs over the same bytes at
different positions produce `ResultRel`-related results. -/
def Uniform {α : Type} (E : α → α → Prop) (f : Parser α) : Prop :=
  ∀ s1 s2 : Span, s1.bytes = s2.bytes → ResultRel E (f s1) (f s2)

/-- No two adjacent characters form the closing marker of a delimited
comment. -/
def noStarSlash : List Char → Bool
  | [] => true
  | c :: cs =>
    (if c = '*' ∧ cs.head? = some '/' then false else true) && noStarSlash cs

/-- One self-delimited whitespace-or-comment chunk: a whitespace byte,
a line comment ending in its terminator, or a terminated delimited
comment with no early closing marker. -/
def SkipChunk (w : List Char) : Prop :=
  (∃ c, w = [c] ∧ wsChar c = true) ∨
  (∃ mark body term, w = mark ++ body ++ term ∧
     (mark = ['/', '/'] ∨ mark = [hashChar]) ∧
     (∀ c ∈ body, c ≠ lfChar ∧ c ≠ crChar) ∧
     (term = [lfChar] ∨ term = [crChar, lfChar])) ∨
  (∃ body, w = ['/', '*'] ++ body ++ ['*', '/'] ∧ noStarSlash body = true)

/-- A valid whitespace/comment prefix: a concatenation of chunks. -/
def Skippable (w : List Char) : Prop :=
  ∃ chunks : List (List Char), w = chunks.flatten ∧ ∀ c ∈ chunks, SkipChunk c

/-- Input bytes of `list('a' => $a)`. -/
def listKeyedIn : List Char :=
  ("list(").data ++ [sqChar] ++ ("a").data ++ [sqChar] ++ (" => $a)").data

/-- Input bytes of `list('a' => $a, $b)`. -/
def listMixedIn : List Char :=
  ("list(").data ++ [sqChar] ++ ("a").data ++ [sqChar] ++ (" => $a, $b)").data

/-- Input bytes of `function f() {}`. -/
def fnEmptyBodyIn : List Char := ("function f() ").data ++ [lcurly, rcurly]

/-- Input bytes of `{}`. -/
def csEmptyIn : List Char := [lcurly, rcurly]

/-- Input bytes of `{ return; }`. -/
def csReturnIn : List Char := [lcurly] ++ (" return; ").data ++ [rcurly]

/-! ## Helper lemmas about the combinators -/

/-- When the wrapped parser succeeds and the mapper rejects its output,
`map_res_and_input!` discards the mapper's error value and produces a
generic `MapRes` error at the original input. -/
theorem pmapResAndInput_err {α β : Type} (p : Parser α)
    (m : α → Span → Except (ErrorKind × Span) β) (s i : Span) (o : α)
    (err : ErrorKind × Span) (hp : p s = .done i o) (hm : m o s = .error err) :
    pmapResAndInput p m s = .error .MapRes s := by
  simp [pmapResAndInput, hp, hm]

/-- `alt!` moves past a branch that fails with any error kind,
including the domain (custom) kinds. -/
theorem palt_error_cons {α : Type} (p : Parser α) (ps : List (Parser α))
    (s e : Span) (k : ErrorKind) (h : p s = .error k e) :
    palt (p :: ps) s = palt ps s := by
  simp [palt, paltGo, h]

/-- `alt_complete!` moves past a branch that fails with any error kind. -/
theorem paltComplete_error_cons {α : Type} (p : Parser α) (ps : List (Parser α))
    (s e : Span) (k : ErrorKind) (h : p s = .error k e) :
    paltComplete (p :: ps) s = paltComplete ps s := by
  simp [paltComplete, paltCompleteGo, h]

/-- Inversion of a successful `pbind`. -/
theorem pbind_done {α β : Type} {p : Parser α} {f : α → Parser β}
    {s i : Span} {v : β} (h : pbind p f s = .done i v) :
    ∃ i' o', p s = .done i' o' ∧ f o' i' = .done i v := by
  unfold pbind at h
  cases hp : p s with
  | done a b => exact ⟨a, b, rfl, by rwa [hp] at h⟩
  | error k e => rw [hp] at h; simp at h
  | incomplete n => rw [hp] at h; simp at h

/-- Inversion of a successful `pmapRes`. -/
theorem pmapRes_done {α β : Type} {p : Parser α} {m : α → Except Unit β}
    {s i : Span} {v : β} (h : pmapRes p m s = .done i v) :
    ∃ o, p s = .done i o ∧ m o = .ok v := by
  unfold pmapRes at h
  cases hp : p s with
  | done a b =>
    simp only [hp] at h
    cases hm : m b with
    | ok w =>
      simp only [hm] at h
      injection h with h1 h2
      subst h1; subst h2
      exact ⟨b, rfl, hm⟩
    | error u => simp only [hm] at h; simp at h
  | error k e => simp only [hp] at h; simp at h
  | incomplete n => simp only [hp] at h; simp at h

/-- The `compound_statement` rule can only output the fixed body
`[Statement::Return]`. -/
theorem compoundStatement_output {s i : Span} {v : List Statement}
    (h : compoundStatementP s = .done i v) : v = [Statement.Return] := by
  obtain ⟨o, _, hm⟩ := pmapRes_done h
  injection hm with hv
  exact hv.symm

end TaguaParser

namespace TaguaParser

/-! ## Claim C1 — the exit/die rule -/

/-- C1 counterexample: `exit(255)` does not fail with the
reserved-exit-code custom error kind; the `intrinsic_exit` rule
surfaces a generic `MapRes` error at the rule input. -/
theorem C1_exit_custom_error_counterexample :
    intrinsicExitP 30 (mkSpan (("exit(255)").data))
      = .error .MapRes (mkSpan (("exit(255)").data)) ∧
    ErrorKind.MapRes ≠ .Custom eReservedExitCode :=
  ⟨rfl, by decide⟩

/-- C1 (amended): in the `intrinsic_exit` rule, the validation step
`exit_mapper` rejects a literal-integer argument equal to 255 with the
reserved-exit-code custom error and one greater than 255 with the
out-of-range custom error, but `map_res_and_input!` surfaces both as a
generic `MapRes` error at the rule input, so `exit(255)`, `die(255)`
and `exit(256)` fail with `MapRes` there; `exit(254)`, `exit(0)` and
`exit($variable)` succeed with an `Expression::Exit` node, and `exit`
with no argument succeeds with `Exit(None)` when the next byte is not
`(` (at end of input the rule asks for more bytes instead). -/
theorem C1_exit_rule :
    (∀ sp inp : Span,
        exitMapper (some (.Literal (.Integer 255 sp))) inp
          = .error (.Custom eReservedExitCode, inp)) ∧
    (∀ (v : Int) (sp inp : Span), 255 < v →
        exitMapper (some (.Literal (.Integer v sp))) inp
          = .error (.Custom eOutOfRangeExitCode, inp)) ∧
    (∀ (v : Int) (sp inp : Span), v < 255 →
        exitMapper (some (.Literal (.Integer v sp))) inp
          = .ok (.Exit (some (.Literal (.Integer v sp))))) ∧
    (∀ inp : Span, exitMapper none inp = .ok (.Exit none)) ∧
    intrinsicExitP 30 (mkSpan (("exit(255)").data))
      = .error .MapRes (mkSpan (("exit(255)").data)) ∧
    intrinsicExitP 30 (mkSpan (("exit(256)").data))
      = .error .MapRes (mkSpan (("exit(256)").data)) ∧
    intrinsicExitP 30 (mkSpan (("die(255)").data))
      = .error .MapRes (mkSpan (("die(255)").data)) ∧
    intrinsicExitP 30 (mkSpan (("exit(254)").data))
      = .done (Span.mk [] 9 1 10)
          (.Exit (some (.Literal (.Integer 254 (Span.mk (("254").data) 5 1 6))))) ∧
    intrinsicExitP 30 (mkSpan (("exit(0)").data))
      = .done (Span.mk [] 7 1 8)
          (.Exit (some (.Literal (.Integer 0 (Span.mk (("0").data) 5 1 6))))) ∧
    intrinsicExitP 30 (mkSpan (("exit($variable)").data))
      = .done (Span.mk [] 15 1 16)
          (.Exit (some (.Variable ⟨Span.mk (("variable").data) 6 1 7⟩))) ∧
    intrinsicExitP 30 (mkSpan (("exit 42").data))
      = .done (Span.mk ((" 42").data) 4 1 5) (.Exit none) ∧
    intrinsicExitP 30 (mkSpan (("exit").data)) = .incomplete 1 := by
  refine ⟨?_, ?_, ?_, ?_, rfl, rfl, rfl, rfl, rfl, rfl, rfl, rfl⟩
  · intro sp inp
    simp [exitMapper]
  · intro v sp inp hv
    have h1 : ¬(v = 255) := by omega
    have h2 : v > 255 := hv
    simp [exitMapper, h1, h2]
  · intro v sp inp hv
    have h1 : ¬(v = 255) := by omega
    have h2 : ¬(v > 255) := by omega
    simp [exitMapper, h1, h2]
  · intro inp
    simp [exitMapper]

end TaguaParser

namespace TaguaParser

/-! ## Claim C4 — the list rule -/

/-- C4 counterexample: `list()` does not fail with the custom
`ListIsEmpty` error kind; the `intrinsic_list` rule surfaces a generic
`MapRes` error at the rule input. -/
theorem C4_list_empty_error_counterexample :
    intrinsicListP 30 (mkSpan (("list()").data))
      = .error .MapRes (mkSpan (("list()").data)) ∧
    ErrorKind.MapRes ≠ .Custom eListIsEmpty :=
  ⟨rfl, by decide⟩

/-- C4 (amended): for the `intrinsic_list` rule, a fully unkeyed list
(holes allowed as `None` slots) and a fully keyed list succeed, and a
mix of keyed and unkeyed items fails (with a structural `Tag` error at
the first unkeyed item); a list with zero items or only holes is
rejected by `intrinsic_list_mapper` with the custom `ListIsEmpty`
error, which `map_res_and_input!` surfaces as a generic `MapRes` error
at the rule input. -/
theorem C4_list_rule :
    (∀ (items : List (Option (Option Expression × Expression))) (inp : Span),
        items.any Option.isSome = false →
        intrinsicListMapper (.List items) inp
          = .error (.Custom eListIsEmpty, inp)) ∧
    (∀ (items : List (Option (Option Expression × Expression))) (inp : Span),
        items.any Option.isSome = true →
        intrinsicListMapper (.List items) inp = .ok (.List items)) ∧
    intrinsicListP 30 (mkSpan (("list($a, $b)").data))
      = .done (Span.mk [] 12 1 13)
          (.List [some (none, .Variable ⟨Span.mk (("a").data) 6 1 7⟩),
                  some (none, .Variable ⟨Span.mk (("b").data) 10 1 11⟩)]) ∧
    intrinsicListP 30 (mkSpan (("list($a, , $b)").data))
      = .done (Span.mk [] 14 1 15)
          (.List [some (none, .Variable ⟨Span.mk (("a").data) 6 1 7⟩), none,
                  some (none, .Variable ⟨Span.mk (("b").data) 12 1 13⟩)]) ∧
    intrinsicListP 30 (mkSpan listKeyedIn)
      = .done (Span.mk [] 15 1 16)
          (.List [some
            (some (.Literal (.Str (("a").data)
              (Span.mk ([sqChar] ++ ("a").data ++ [sqChar]) 5 1 6))),
             .Variable ⟨Span.mk (("a").data) 13 1 14⟩)]) ∧
    intrinsicListP 30 (mkSpan listMixedIn)
      = .error .Tag (Span.mk (("$b)").data) 16 1 17) ∧
    intrinsicListP 30 (mkSpan (("list()").data))
      = .error .MapRes (mkSpan (("list()").data)) ∧
    intrinsicListP 30 (mkSpan (("list(,,,)").data))
      = .error .MapRes (mkSpan (("list(,,,)").data)) := by
  refine ⟨?_, ?_, rfl, rfl, rfl, rfl, rfl, rfl⟩
  · intro items inp h
    simp [intrinsicListMapper, h]
  · intro items inp h
    simp [intrinsicListMapper, h]

end TaguaParser

namespace TaguaParser

/-! ## Claim C5 — propagation of domain errors through alternation -/

/-- C5 counterexample: when the chosen `exit` branch's post-validation
step raises the reserved-exit-code domain error on `exit(255)`, the
final result of the whole `primary` call is a generic `Alt` error at
the input, not the custom error. -/
theorem C5_domain_error_counterexample :
    primaryP 30 (mkSpan (("exit(255)").data))
      = .error .Alt (mkSpan (("exit(255)").data)) ∧
    ErrorKind.Alt ≠ .Custom eReservedExitCode ∧
    ErrorKind.Alt ≠ .Custom eOutOfRangeExitCode :=
  ⟨rfl, by decide, by decide⟩

/-- C5 (amended): a domain (custom-kind) error raised by a chosen
branch's post-validation step is not the final result of the whole
call: `map_res_and_input!` replaces the mapper's custom error with a
generic `MapRes` error at the branch input, alternation treats that as
an ordinary branch failure and retries the sibling alternatives, and
when every alternative has failed the call ends with a generic `Alt`
error at the original input. The input is not reinterpreted as some
other construct: `exit(255)` makes `intrinsic` and `primary` fail, not
succeed on a misleading partial match. -/
theorem C5_domain_error_propagation :
    (∀ (α β : Type) (p : Parser α)
        (m : α → Span → Except (ErrorKind × Span) β) (s i : Span) (o : α)
        (err : ErrorKind × Span), p s = .done i o → m o s = .error err →
        pmapResAndInput p m s = .error .MapRes s) ∧
    (∀ (α : Type) (p : Parser α) (ps : List (Parser α)) (s e : Span)
        (k : ErrorKind), p s = .error k e → palt (p :: ps) s = palt ps s) ∧
    (∀ (α : Type) (p : Parser α) (ps : List (Parser α)) (s e : Span)
        (k : ErrorKind), p s = .error k e →
        paltComplete (p :: ps) s = paltComplete ps s) ∧
    intrinsicExitP 30 (mkSpan (("exit(255)").data))
      = .error .MapRes (mkSpan (("exit(255)").data)) ∧
    intrinsicOperatorP 30 (mkSpan (("exit(255)").data))
      = .error .Alt (mkSpan (("exit(255)").data)) ∧
    intrinsicP 30 (mkSpan (("exit(255)").data))
      = .error .Alt (mkSpan (("exit(255)").data)) ∧
    primaryP 30 (mkSpan (("exit(255)").data))
      = .error .Alt (mkSpan (("exit(255)").data)) ∧
    expressionP 30 (mkSpan (("exit(255)").data))
      = .error .Alt (mkSpan (("exit(255)").data)) := by
  refine ⟨?_, ?_, ?_, rfl, rfl, rfl, rfl, rfl⟩
  · intro α β p m s i o err hp hm
    exact pmapResAndInput_err p m s i o err hp hm
  · intro α p ps s e k h
    exact palt_error_cons p ps s e k h
  · intro α p ps s e k h
    exact paltComplete_error_cons p ps s e k h

end TaguaParser

namespace TaguaParser

/-! ## Helper lemmas about the parameters validation pass -/

/-- The validation loop accepts a run of non-variadic pairs whose names
are fresh. -/
theorem paramsLoop_ok (inp : Span) (l : List (Parameter × Bool)) :
    ∀ acc : List Parameter,
      (∀ x ∈ l, x.2 = false) →
      List.Pairwise (fun a b => sameName a b = false) (acc ++ l.map (·.1)) →
      paramsLoop inp l acc = .ok (acc ++ l.map (·.1)) := by
  induction l with
  | nil => intro acc _ _; simp [paramsLoop]
  | cons x rest ih =>
    intro acc hv hd
    obtain ⟨p, b⟩ := x
    have hb : b = false := hv (p, b) (by simp)
    subst hb
    simp only [List.map_cons] at hd
    have hcross := (List.pairwise_append.mp hd).2.2
    have hany : acc.any (fun q => sameName q p) = false := by
      rw [List.any_eq_false]
      intro q hq
      simp [hcross q hq p (by simp)]
    simp only [paramsLoop, hany, Bool.false_eq_true, if_false]
    have := ih (acc ++ [p]) (fun y hy => hv y (by simp [hy]))
      (by simpa [List.append_assoc] using hd)
    simpa [List.append_assoc] using this

/-- The validation loop rejects a non-last variadic pair, provided no
duplicate name fires first. -/
theorem paramsLoop_variadic (inp : Span) (l1 : List (Parameter × Bool))
    (p : Parameter) (l2 : List (Parameter × Bool)) :
    ∀ acc : List Parameter,
      (∀ x ∈ l1, x.2 = false) →
      List.Pairwise (fun a b => sameName a b = false)
        (acc ++ l1.map (·.1) ++ [p]) →
      paramsLoop inp (l1 ++ (p, true) :: l2) acc
        = .error (.Custom eInvalidVariadicParameterPosition, inp) := by
  induction l1 with
  | nil => intro acc _ _; simp [paramsLoop]
  | cons x rest ih =>
    intro acc hv hd
    obtain ⟨q, b⟩ := x
    have hb : b = false := hv (q, b) (by simp)
    subst hb
    simp only [List.map_cons] at hd
    have h1 := (List.pairwise_append.mp hd).1
    have hcross := (List.pairwise_append.mp h1).2.2
    have hany : acc.any (fun r => sameName r q) = false := by
      rw [List.any_eq_false]
      intro r hr
      simp [hcross r hr q (by simp)]
    simp only [List.cons_append, paramsLoop, hany, Bool.false_eq_true, if_false]
    exact ih (acc ++ [q]) (fun y hy => hv y (by simp [hy]))
      (by simpa [List.append_assoc] using hd)

/-- Over non-variadic pairs, the only error the validation loop can
produce is the duplicate-name one. -/
theorem paramsLoop_error_dup (inp : Span) (l : List (Parameter × Bool)) :
    ∀ (acc : List Parameter) (e : ErrorKind × Span),
      (∀ x ∈ l, x.2 = false) →
      paramsLoop inp l acc = .error e →
      e = (.Custom eMultipleParametersWithSameName, inp) := by
  induction l with
  | nil => intro acc e _ h; simp [paramsLoop] at h
  | cons x rest ih =>
    intro acc e hv h
    obtain ⟨p, b⟩ := x
    have hb : b = false := hv (p, b) (by simp)
    subst hb
    simp only [paramsLoop, Bool.false_eq_true, if_false] at h
    by_cases hany : acc.any (fun q => sameName q p) = true
    · rw [if_pos hany] at h
      injection h with h1
      exact h1.symm
    · rw [if_neg hany] at h
      exact ih (acc ++ [p]) e (fun y hy => hv y (by simp [hy])) h

/-- A successful validation loop returns the accumulator followed by
the parameters of the pairs. -/
theorem paramsLoop_ok_shape (inp : Span) (l : List (Parameter × Bool)) :
    ∀ (acc r : List Parameter), paramsLoop inp l acc = .ok r →
      r = acc ++ l.map (·.1) := by
  induction l with
  | nil => intro acc r h; simp only [paramsLoop] at h; injection h with h1; simp [h1.symm]
  | cons x rest ih =>
    intro acc r h
    obtain ⟨p, b⟩ := x
    cases b with
    | true => simp [paramsLoop] at h
    | false =>
      simp only [paramsLoop, Bool.false_eq_true, if_false] at h
      by_cases hany : acc.any (fun q => sameName q p) = true
      · rw [if_pos hany] at h; simp at h
      · rw [if_neg hany] at h
        have := ih (acc ++ [p]) r h
        simpa [List.append_assoc] using this

/-- A successful validation loop keeps the names pairwise distinct. -/
theorem paramsLoop_ok_pairwise (inp : Span) (l : List (Parameter × Bool)) :
    ∀ (acc r : List Parameter),
      List.Pairwise (fun a b => sameName a b = false) acc →
      paramsLoop inp l acc = .ok r →
      List.Pairwise (fun a b => sameName a b = false) r := by
  induction l with
  | nil =>
    intro acc r hacc h
    simp only [paramsLoop] at h
    injection h with h1
    exact h1 ▸ hacc
  | cons x rest ih =>
    intro acc r hacc h
    obtain ⟨p, b⟩ := x
    cases b with
    | true => simp [paramsLoop] at h
    | false =>
      simp only [paramsLoop, Bool.false_eq_true, if_false] at h
      by_cases hany : acc.any (fun q => sameName q p) = true
      · rw [if_pos hany] at h; simp at h
      · rw [if_neg hany] at h
        refine ih (acc ++ [p]) r ?_ h
        rw [List.pairwise_append]
        refine ⟨hacc, by simp, ?_⟩
        intro a ha b hb
        rw [List.mem_singleton] at hb
        subst hb
        rw [Bool.not_eq_true, List.any_eq_false] at hany
        simpa using hany a ha

end TaguaParser

namespace TaguaParser

/-! ## Claim C2 — the variadic position invariant -/

/-- C2 counterexample: a non-last variadic parameter does not surface
the custom `InvalidVariadicParameterPosition` error kind from the
`parameters` rule; the rule fails with a generic `MapRes` error at the
list input. -/
theorem C2_variadic_custom_error_counterexample :
    parametersP 30 (mkSpan (("(...$x, $y)").data))
      = .error .MapRes (mkSpan (("(...$x, $y)").data)) ∧
    ErrorKind.MapRes ≠ .Custom eInvalidVariadicParameterPosition :=
  ⟨rfl, by decide⟩

/-- C2 (amended): in the single validation pass `parameters_mapper`, a
pair list with a variadic parameter in non-last position (and distinct
names up to that point) is rejected with the custom
`InvalidVariadicParameterPosition` error, which `map_res_and_input!`
surfaces as a generic `MapRes` error of the `parameters` rule; an
all-distinct list whose last parameter alone is variadic yields
`Arity::Infinite` with all parameters, no variadic yields
`Arity::Finite`, and an absent or empty list yields `Arity::Constant`. -/
theorem C2_variadic_position :
    (∀ (inp : Span) (l1 : List (Parameter × Bool)) (p : Parameter)
        (l2 : List (Parameter × Bool)) (z : Parameter × Bool),
        (∀ x ∈ l1, x.2 = false) →
        distinctNames (l1.map (·.1) ++ [p]) →
        parametersMapper (some (l1 ++ (p, true) :: l2 ++ [z])) inp
          = .error (.Custom eInvalidVariadicParameterPosition, inp)) ∧
    (∀ (inp : Span) (init : List (Parameter × Bool)) (lastP : Parameter),
        (∀ x ∈ init, x.2 = false) →
        distinctNames (init.map (·.1) ++ [lastP]) →
        parametersMapper (some (init ++ [(lastP, true)])) inp
          = .ok (.Infinite (init.map (·.1) ++ [lastP]))) ∧
    (∀ (inp : Span) (init : List (Parameter × Bool)) (lastP : Parameter),
        (∀ x ∈ init, x.2 = false) →
        distinctNames (init.map (·.1) ++ [lastP]) →
        parametersMapper (some (init ++ [(lastP, false)])) inp
          = .ok (.Finite (init.map (·.1) ++ [lastP]))) ∧
    (∀ inp : Span, parametersMapper none inp = .ok .Constant) ∧
    (∀ inp : Span, parametersMapper (some []) inp = .ok .Constant) ∧
    parametersP 30 (mkSpan (("()").data)) = .done (Span.mk [] 2 1 3) .Constant ∧
    parametersP 30 (mkSpan (("($x)").data))
      = .done (Span.mk [] 4 1 5)
          (.Finite [.mk (.Copy none) ⟨Span.mk (("x").data) 2 1 3⟩ none]) ∧
    parametersP 30 (mkSpan (("($x, ...$y)").data))
      = .done (Span.mk [] 11 1 12)
          (.Infinite [.mk (.Copy none) ⟨Span.mk (("x").data) 2 1 3⟩ none,
                      .mk (.Copy none) ⟨Span.mk (("y").data) 9 1 10⟩ none]) ∧
    parametersP 30 (mkSpan (("(...$x, $y)").data))
      = .error .MapRes (mkSpan (("(...$x, $y)").data)) := by
  have hlast : ∀ (l : List (Parameter × Bool)) (z : Parameter × Bool),
      (l ++ [z]).getLast? = some z := by
    intro l z; exact List.getLast?_concat _
  have hdrop : ∀ (l : List (Parameter × Bool)) (z : Parameter × Bool),
      (l ++ [z]).dropLast = l := by
    intro l z; exact List.dropLast_concat
  refine ⟨?_, ?_, ?_, fun _ => rfl, fun _ => rfl, rfl, rfl, rfl, rfl⟩
  · intro inp l1 p l2 z hv hd
    have hlist : l1 ++ (p, true) :: l2 ++ [z] = (l1 ++ (p, true) :: l2) ++ [z] := by
      simp
    rw [hlist]
    simp only [parametersMapper, hlast, hdrop]
    rw [paramsLoop_variadic inp l1 p l2 [] hv
      (by simpa [distinctNames] using hd)]
  · intro inp init lastP hv hd
    simp only [distinctNames] at hd
    simp only [parametersMapper, hlast, hdrop]
    rw [paramsLoop_ok inp init [] hv (by simpa using (List.pairwise_append.mp hd).1)]
    have hcross := (List.pairwise_append.mp hd).2.2
    have hany : ((init.map (·.1)).any fun q => sameName q lastP) = false := by
      rw [List.any_eq_false]
      intro q hq
      simp [hcross q hq lastP (by simp)]
    simp [hany]
  · intro inp init lastP hv hd
    simp only [distinctNames] at hd
    simp only [parametersMapper, hlast, hdrop]
    rw [paramsLoop_ok inp init [] hv (by simpa using (List.pairwise_append.mp hd).1)]
    have hcross := (List.pairwise_append.mp hd).2.2
    have hany : ((init.map (·.1)).any fun q => sameName q lastP) = false := by
      rw [List.any_eq_false]
      intro q hq
      simp [hcross q hq lastP (by simp)]
    simp [hany]

end TaguaParser

namespace TaguaParser

/-! ## Claim C3 — the duplicate parameter name invariant -/

/-- C3 counterexample: two parameters with the same name do not surface
the custom `MultipleParametersWithSameName` error kind from the
`parameters` rule; the rule fails with a generic `MapRes` error at the
list input. -/
theorem C3_duplicate_custom_error_counterexample :
    parametersP 30 (mkSpan (("($x, $x)").data))
      = .error .MapRes (mkSpan (("($x, $x)").data)) ∧
    ErrorKind.MapRes ≠ .Custom eMultipleParametersWithSameName :=
  ⟨rfl, by decide⟩

/-- C3 (amended): the duplicate-name check lives in the single
post-parse pass `parameters_mapper` that converts the raw pair list to
an `Arity`: whenever the pair list has two parameters with the same
name (and no non-last variadic pair triggers the position check
first), the pass rejects it with the custom
`MultipleParametersWithSameName` error, which `map_res_and_input!`
surfaces as a generic `MapRes` error of the `parameters` rule. -/
theorem C3_duplicate_names :
    (∀ (inp : Span) (pairs : List (Parameter × Bool)),
        (∀ x ∈ pairs.dropLast, x.2 = false) →
        ¬ distinctNames (pairs.map (·.1)) →
        parametersMapper (some pairs) inp
          = .error (.Custom eMultipleParametersWithSameName, inp)) ∧
    parametersP 30 (mkSpan (("($x, $x)").data))
      = .error .MapRes (mkSpan (("($x, $x)").data)) ∧
    parametersP 30 (mkSpan (("($x, $y, $x, $z)").data))
      = .error .MapRes (mkSpan (("($x, $y, $x, $z)").data)) := by
  refine ⟨?_, rfl, rfl⟩
  intro inp pairs hv hnd
  simp only [distinctNames] at hnd
  cases hlast : pairs.getLast? with
  | none =>
    rw [List.getLast?_eq_none_iff] at hlast
    subst hlast
    simp at hnd
  | some z =>
    obtain ⟨lastP, lastV⟩ := z
    have hsplit : pairs.dropLast ++ [(lastP, lastV)] = pairs := by
      have hne : pairs ≠ [] := by
        intro hnil
        rw [hnil] at hlast
        simp at hlast
      have := List.dropLast_append_getLast hne
      rwa [List.getLast_eq_iff_getLast?_eq_some hne |>.mpr hlast] at this
    simp only [parametersMapper, hlast]
    cases hr : paramsLoop inp pairs.dropLast [] with
    | error e =>
      simp [paramsLoop_error_dup inp pairs.dropLast [] e hv hr]
    | ok params =>
      have hshape := paramsLoop_ok_shape inp pairs.dropLast [] params hr
      have hpw := paramsLoop_ok_pairwise inp pairs.dropLast [] params (by simp) hr
      by_cases hany : (params.any fun q => sameName q lastP) = true
      · simp [hany]
      · exfalso
        apply hnd
        rw [← hsplit, List.map_append, List.map_cons, List.map_nil,
          List.pairwise_append]
        refine ⟨by simpa [hshape] using hpw, by simp, ?_⟩
        intro a ha b hb
        rw [List.mem_singleton] at hb
        subst hb
        rw [Bool.not_eq_true, List.any_eq_false] at hany
        have := hany a (by simpa [hshape] using ha)
        simpa using this

end TaguaParser

namespace TaguaParser

/-! ## Claim C6 — case-insensitive keyword matching -/

/-- C6 counterexample: for a requested tag of 3 bytes against an input
of 2 bytes whose overlap does not match, `itag` does not return
`Incomplete(Size(3))` as the claim states for every shorter input; it
fails with the custom `ITag` error. -/
theorem C6_itag_short_mismatch_counterexample :
    pitag (("abc").data) (mkSpan (("xy").data))
      = .error (.Custom eITag) (mkSpan (("xy").data)) ∧
    PResult.error (.Custom eITag) (mkSpan (("xy").data))
      ≠ (.incomplete 3 : PResult Span) :=
  ⟨rfl, by simp⟩

/-- C6 (amended): `itag`/`keyword` succeeds exactly when the input has
the requested tag as a case-insensitive prefix; it then consumes
exactly the tag length, returns a span holding the canonical requested
bytes at the match position, and advances the remaining span's
offset/line/column over the consumed bytes. When the input is shorter
than the tag and matches the corresponding tag prefix
case-insensitively, the result is `Incomplete(Size(len(tag)))`;
otherwise the rule fails with the custom `ITag` error kind, which is
distinct from the plain `Tag` kind. -/
theorem C6_itag_keyword :
    (∀ (t : List Char) (s : Span), t.length ≤ s.bytes.length →
        ciEq (s.bytes.take t.length) t = true →
        pitag t s = .done (s.dropBytes t.length) ⟨t, s.offset, s.line, s.column⟩) ∧
    (∀ (t : List Char) (s : Span) (i o : Span), pitag t s = .done i o →
        t.length ≤ s.bytes.length ∧ ciEq (s.bytes.take t.length) t = true ∧
        i = s.dropBytes t.length ∧ o = ⟨t, s.offset, s.line, s.column⟩) ∧
    (∀ (t : List Char) (s : Span), s.bytes.length < t.length →
        ciEq s.bytes (t.take s.bytes.length) = true →
        pitag t s = .incomplete t.length) ∧
    (∀ (t : List Char) (s : Span),
        ciEq (s.bytes.take (min s.bytes.length t.length))
            (t.take (min s.bytes.length t.length)) = false →
        pitag t s = .error (.Custom eITag) s) ∧
    (∀ (s : Span) (k : Nat), (s.dropBytes k).offset = s.offset + k ∧
        (s.dropBytes k).bytes = s.bytes.drop k) ∧
    (∀ t : List Char, pkeyword t = pitag t) ∧
    ErrorKind.Custom eITag ≠ ErrorKind.Tag ∧
    pkeyword (("class").data) (mkSpan (("ClAsS").data))
      = .done (Span.mk [] 5 1 6) (Span.mk (("class").data) 0 1 1) := by
  refine ⟨?_, ?_, ?_, ?_, fun s k => ⟨rfl, rfl⟩, fun t => rfl, by decide, rfl⟩
  · intro t s hlen hci
    have hmin : min s.bytes.length t.length = t.length := Nat.min_eq_right hlen
    simp [pitag, compareNoCase, hmin, List.take_length, hci]
  · intro t s i o h
    unfold pitag compareNoCase at h
    by_cases hci : ciEq (s.bytes.take (min s.bytes.length t.length))
        (t.take (min s.bytes.length t.length)) = true
    · by_cases hlt : min s.bytes.length t.length < t.length
      · simp [hci, hlt] at h
      · have hle : t.length ≤ s.bytes.length := by
          rcases Nat.le_total t.length s.bytes.length with h1 | h1
          · exact h1
          · have : min s.bytes.length t.length = s.bytes.length :=
              Nat.min_eq_left h1
            omega
        have hmin : min s.bytes.length t.length = t.length := Nat.min_eq_right hle
        rw [hmin, List.take_length] at hci
        simp [hci, hmin, hlt] at h
        exact ⟨hle, hci, h.1.symm, h.2.symm⟩
    · simp [hci] at h
  · intro t s hlt hci
    have hmin : min s.bytes.length t.length = s.bytes.length :=
      Nat.min_eq_left (Nat.le_of_lt hlt)
    simp [pitag, compareNoCase, hmin, List.take_length, hci, hlt]
  · intro t s hci
    simp [pitag, compareNoCase, hci]

end TaguaParser

namespace TaguaParser

/-! ## Claim C7 — the into_type invariant -/

/-- When the nullable flag implies a type name is present, `into_type`
never reaches its `unreachable!()` arm. -/
theorem intoType_isSome (tn : Option Name) (nul ref : Bool)
    (h : nul = true → tn.isSome) : (intoType tn nul ref).isSome := by
  cases tn with
  | some t => cases nul <;> cases ref <;> simp [intoType]
  | none =>
    cases nul with
    | false => cases ref <;> simp [intoType]
    | true => exact absurd (h rfl) (by simp)

/-- C7: every `Ty` constructed by `into_type` during parameter and
return-type parsing is one of the four variants `Copy`, `Reference`,
`NullableCopy`, `NullableReference`, and the nullable-untyped
combination never occurs: the type-prefix sub-rule of `parameter`
always yields `Some(type_name)` whenever it yields a nullable flag, so
at both call sites of `into_type` (the parameter rule's getD-composed
pair and the function rules' always-typed return annotation) the
`unreachable!()` arm is never executed, for every input. -/
theorem C7_into_type_invariant :
    (∀ (tn : Option Name) (nul ref : Bool), (nul = true → tn.isSome) →
        (intoType tn nul ref).isSome) ∧
    (∀ t : Name, intoType (some t) true false = some (.NullableCopy t)) ∧
    (∀ t : Name, intoType (some t) true true = some (.NullableReference t)) ∧
    (∀ tn : Option Name, intoType tn false false = some (.Copy tn)) ∧
    (∀ tn : Option Name, intoType tn false true = some (.Reference tn)) ∧
    (∀ (s i : Span) (v : Option Name × Option Span),
        parameterTypePairP s = .done i v → v.1.isSome) ∧
    (∀ (tp : Option (Option Name × Option Span)) (r : Bool),
        (∀ x, tp = some x → x.1.isSome) →
        (intoType (tp.getD (none, none)).1
          (tp.getD (none, none)).2.isSome r).isSome) ∧
    (∀ (t : Name) (nul ref : Bool), (intoType (some t) nul ref).isSome) := by
  refine ⟨intoType_isSome, fun t => rfl, fun t => rfl,
    ?_, ?_, ?_, ?_, ?_⟩
  · intro tn; cases tn <;> rfl
  · intro tn; cases tn <;> rfl
  · intro s i v h
    obtain ⟨i1, o1, h1, h⟩ := pbind_done h
    obtain ⟨i2, o2, h2, h⟩ := pbind_done h
    unfold ppure at h
    injection h with h3 h4
    subst h4
    simp
  · intro tp r h
    cases tp with
    | none => cases r <;> simp [intoType]
    | some x =>
      refine intoType_isSome _ _ _ ?_
      intro _
      exact h x rfl
  · intro t nul ref
    exact intoType_isSome _ _ _ (fun _ => by simp)

end TaguaParser

namespace TaguaParser

/-! ## Claim C8 — array trailing commas -/

/-- C8: for the `array` rule in both surface syntaxes, one trailing
comma after the last pair is permitted — `[1, 2, 3,]` and
`array(1, 2, 3,)` succeed with exactly three elements — while a comma
with nothing before it is a parse error: `[1, 2, 3,,]`, `[,]`,
`array(1, 2, 3,,)` and `array(,)` all fail. -/
theorem C8_array_trailing_comma :
    arrayP 30 (mkSpan (("[1, 2, 3,]").data))
      = .done (Span.mk [] 10 1 11)
          (.Array [(none, .Literal (.Integer 1 (Span.mk (("1").data) 1 1 2))),
                   (none, .Literal (.Integer 2 (Span.mk (("2").data) 4 1 5))),
                   (none, .Literal (.Integer 3 (Span.mk (("3").data) 7 1 8)))]) ∧
    arrayP 30 (mkSpan (("array(1, 2, 3,)").data))
      = .done (Span.mk [] 15 1 16)
          (.Array [(none, .Literal (.Integer 1 (Span.mk (("1").data) 6 1 7))),
                   (none, .Literal (.Integer 2 (Span.mk (("2").data) 9 1 10))),
                   (none, .Literal (.Integer 3 (Span.mk (("3").data) 12 1 13)))]) ∧
    arrayP 30 (mkSpan (("[1, 2, 3,,]").data))
      = .error .Alt (mkSpan (("[1, 2, 3,,]").data)) ∧
    arrayP 30 (mkSpan (("[,]").data)) = .error .Alt (mkSpan (("[,]").data)) ∧
    arrayP 30 (mkSpan (("array(1, 2, 3,,)").data))
      = .error .Alt (mkSpan (("array(1, 2, 3,,)").data)) ∧
    arrayP 30 (mkSpan (("array(,)").data))
      = .error .Alt (mkSpan (("array(,)").data)) ∧
    primaryP 30 (mkSpan (("[1, 2, 3,,]").data))
      = .error .Alt (mkSpan (("[1, 2, 3,,]").data)) :=
  ⟨rfl, rfl, rfl, rfl, rfl, rfl, rfl⟩

end TaguaParser

namespace TaguaParser

/-! ## Claim C10 — the compound_statement stub -/

/-- C10: the `compound_statement` rule accepts `{`, an optional literal
`return;`, then `}` (whitespace/comments skipped before the token and
the closing brace), and always outputs the fixed body
`vec![Statement::Return]`; consequently every function and anonymous
function that parses successfully — including one whose source body is
the empty `{}` — has a body equal to exactly `[Statement::Return]`.
The rule accepts nothing else inside the braces: a body such as
`{ echo; }` is a parse error. -/
theorem C10_compound_statement :
    (∀ (s i : Span) (v : List Statement),
        compoundStatementP s = .done i v → v = [Statement.Return]) ∧
    (∀ (n : Nat) (s i : Span) (st : Statement),
        functionP n s = .done i st →
        ∃ f : Function, st = .Function f ∧ f.body = [Statement.Return]) ∧
    (∀ (n : Nat) (s i : Span) (e : Expression),
        anonymousFunctionP n s = .done i e →
        ∃ af : AnonymousFunction,
          e = .AnonymousFunction af ∧ af.body = [Statement.Return]) ∧
    compoundStatementP (mkSpan csEmptyIn)
      = .done (Span.mk [] 2 1 3) [Statement.Return] ∧
    compoundStatementP (mkSpan csReturnIn)
      = .done (Span.mk [] 11 1 12) [Statement.Return] ∧
    compoundStatementP (mkSpan ([lcurly] ++ (" echo; ").data ++ [rcurly]))
      = .error .Tag (Span.mk ((("echo; ").data ++ [rcurly])) 2 1 3) ∧
    functionP 30 (mkSpan fnEmptyBodyIn)
      = .done (Span.mk [] 15 1 16)
          (.Function (.mk (Span.mk (("f").data) 9 1 10) .Constant (.Copy none)
            [Statement.Return])) := by
  refine ⟨fun s i v h => compoundStatement_output h, ?_, ?_, rfl, rfl, rfl, rfl⟩
  · intro n s i st h
    cases n with
    | zero => simp [functionP] at h
    | succ n =>
      unfold functionP at h
      obtain ⟨i1, o1, h1, h⟩ := pbind_done h
      obtain ⟨i2, o2, h2, h⟩ := pbind_done h
      obtain ⟨i3, o3, h3, h⟩ := pbind_done h
      obtain ⟨i4, o4, h4, h⟩ := pbind_done h
      obtain ⟨i5, o5, h5, h⟩ := pbind_done h
      obtain ⟨i6, o6, h6, h⟩ := pbind_done h
      have hbody : o6 = [Statement.Return] := compoundStatement_output h6
      unfold ppure at h
      injection h with h7 h8
      subst h8 hbody
      exact ⟨_, rfl, rfl⟩
  · intro n s i e h
    cases n with
    | zero => simp [anonymousFunctionP] at h
    | succ n =>
      unfold anonymousFunctionP at h
      obtain ⟨i1, o1, h1, h⟩ := pbind_done h
      obtain ⟨i2, o2, h2, h⟩ := pbind_done h
      obtain ⟨i3, o3, h3, h⟩ := pbind_done h
      obtain ⟨i4, o4, h4, h⟩ := pbind_done h
      obtain ⟨i5, o5, h5, h⟩ := pbind_done h
      obtain ⟨i6, o6, h6, h⟩ := pbind_done h
      obtain ⟨i7, o7, h7, h⟩ := pbind_done h
      have hbody : o7 = [Statement.Return] := compoundStatement_output h7
      unfold ppure at h
      injection h with h8 h9
      subst h9 hbody
      exact ⟨_, rfl, rfl⟩

end TaguaParser


namespace TaguaParser

/-! ## Helper lemmas about the skip rule -/

/-- A clean single-line comment body followed by a line feed is
consumed exactly up to and including the line feed. -/
theorem lineBodyLen_lf (body : List Char)
    (hb : ∀ c ∈ body, c ≠ lfChar ∧ c ≠ crChar) (rest : List Char) :
    lineBodyLen (body ++ lfChar :: rest) = body.length + 1 := by
  induction body with
  | nil => simp [lineBodyLen]
  | cons c cs ih =>
    have hc := hb c (by simp)
    rw [List.cons_append, lineBodyLen]
    simp only [hc.1, hc.2, if_false]
    rw [ih (fun x hx => hb x (by simp [hx]))]
    simp only [List.length_cons]
    omega

/-- A clean single-line comment body followed by a carriage-return and
line-feed pair is consumed exactly up to and including the pair. -/
theorem lineBodyLen_crlf (body : List Char)
    (hb : ∀ c ∈ body, c ≠ lfChar ∧ c ≠ crChar) (rest : List Char) :
    lineBodyLen (body ++ crChar :: lfChar :: rest) = body.length + 2 := by
  induction body with
  | nil => simp [lineBodyLen, (by decide : crChar ≠ lfChar)]
  | cons c cs ih =>
    have hc := hb c (by simp)
    rw [List.cons_append, lineBodyLen]
    simp only [hc.1, hc.2, if_false]
    rw [ih (fun x hx => hb x (by simp [hx]))]
    simp only [List.length_cons]
    omega

/-- A delimited comment body with no early closing marker is consumed
exactly up to and including the closing marker. -/
theorem untilStarSlash_closed (body : List Char)
    (hb : noStarSlash body = true) (rest : List Char) :
    untilStarSlash (body ++ '*' :: '/' :: rest) = some (body.length + 2) := by
  induction body with
  | nil => simp [untilStarSlash]
  | cons c cs ih =>
    rw [noStarSlash, Bool.and_eq_true] at hb
    have hcs := hb.2
    rw [List.cons_append, untilStarSlash, ih hcs]
    by_cases hc : c = '*'
    · subst hc
      have hd : ¬((cs ++ '*' :: '/' :: rest).head? = some '/') := by
        cases cs with
        | nil => simp
        | cons d cs2 =>
          have hno : ¬('*' = '*' ∧ (d :: cs2).head? = some '/') := by
            intro hcon
            have := hb.1
            rw [if_pos hcon] at this
            simp at this
          simp only [List.cons_append, List.head?_cons]
          intro hsome
          exact hno ⟨rfl, by simpa using hsome⟩
      rw [if_pos rfl, if_neg hd]
      simp only [Option.map_some', List.length_cons, Option.some.injEq]
    · rw [if_neg hc]
      simp only [Option.map_some', List.length_cons, Option.some.injEq]

end TaguaParser

namespace TaguaParser

/-- Length bound of the single-line comment body scan. -/
theorem lineBodyLen_le (l : List Char) : lineBodyLen l ≤ l.length := by
  induction l with
  | nil => simp [lineBodyLen]
  | cons c cs ih =>
    rw [lineBodyLen]
    by_cases h1 : c = lfChar
    · simp [h1]
    · by_cases h2 : c = crChar
      · rw [if_neg h1, if_pos h2]
        by_cases h3 : cs.head? = some lfChar
        · rw [if_pos h3]
          cases cs with
          | nil => simp at h3
          | cons d cs2 => simp
        · rw [if_neg h3]
          simp
      · rw [if_neg h1, if_neg h2]
        simp only [List.length_cons]
        omega

/-- Length bounds of the delimited comment scan. -/
theorem untilStarSlash_le (l : List Char) :
    ∀ k, untilStarSlash l = some k → 1 ≤ k ∧ k ≤ l.length := by
  induction l with
  | nil => intro k h; simp [untilStarSlash] at h
  | cons c cs ih =>
    intro k h
    rw [untilStarSlash] at h
    by_cases hc : c = '*'
    · rw [if_pos hc] at h
      by_cases hd : cs.head? = some '/'
      · rw [if_pos hd] at h
        injection h with h1
        subst h1
        cases cs with
        | nil => simp at hd
        | cons d cs2 => simp only [List.length_cons]; omega
      · rw [if_neg hd] at h
        cases hm : untilStarSlash cs with
        | none => rw [hm] at h; simp at h
        | some m =>
          rw [hm] at h
          simp only [Option.map_some', Option.some.injEq] at h
          have := ih m hm
          simp only [List.length_cons]
          omega
    · rw [if_neg hc] at h
      cases hm : untilStarSlash cs with
      | none => rw [hm] at h; simp at h
      | some m =>
        rw [hm] at h
        simp only [Option.map_some', Option.some.injEq] at h
        have := ih m hm
        simp only [List.length_cons]
        omega

/-- Every step of the skip rule consumes at least one byte and at most
the whole input. -/
theorem skipStepLen_bounds (l : List Char) (k : Nat)
    (h : skipStepLen l = some k) : 0 < k ∧ k ≤ l.length := by
  cases l with
  | nil => simp [skipStepLen] at h
  | cons c cs =>
    rw [skipStepLen] at h
    by_cases hws : wsChar c = true
    · rw [if_pos hws] at h
      injection h with h1
      subst h1
      simp
    · rw [if_neg hws] at h
      cases hline : lineCommentLen (c :: cs) with
      | some m =>
        rw [hline] at h
        injection h with h1
        subst h1
        rw [lineCommentLen] at hline
        by_cases h2 : (c :: cs).take 2 = ['/', '/']
        · rw [if_pos h2] at hline
          injection hline with h3
          have hlen2 : 2 ≤ (c :: cs).length := by
            have := congrArg List.length h2
            simp at this
            simp only [List.length_cons]
            omega
          have := lineBodyLen_le ((c :: cs).drop 2)
          rw [List.length_drop] at this
          have hlc : (c :: cs).length = cs.length + 1 := rfl
          omega
        · rw [if_neg h2] at hline
          by_cases h1 : (c :: cs).take 1 = [hashChar]
          · rw [if_pos h1] at hline
            injection hline with h3
            have := lineBodyLen_le ((c :: cs).drop 1)
            rw [List.length_drop] at this
            have hlc : (c :: cs).length = cs.length + 1 := rfl
            omega
          · rw [if_neg h1] at hline
            simp at hline
      | none =>
        rw [hline] at h
        rw [blockCommentLen] at h
        by_cases h2 : (c :: cs).take 2 = ['/', '*']
        · rw [if_pos h2] at h
          cases hm : untilStarSlash ((c :: cs).drop 2) with
          | none => rw [hm] at h; simp at h
          | some m =>
            rw [hm] at h
            simp only [Option.map_some', Option.some.injEq] at h
            have hlen2 : 2 ≤ (c :: cs).length := by
              have := congrArg List.length h2
              simp at this
              simp only [List.length_cons]
              omega
            have := untilStarSlash_le ((c :: cs).drop 2) m hm
            rw [List.length_drop] at this
            have hlc : (c :: cs).length = cs.length + 1 := rfl
            omega
        · rw [if_neg h2] at h
          simp at h

end TaguaParser

namespace TaguaParser

/-- Taking two from a double cons. -/
theorem take_two_cons (a b : Char) (l : List Char) : (a :: b :: l).take 2 = [a, b] := rfl

/-- Dropping two from a double cons. -/
theorem drop_two_cons (a b : Char) (l : List Char) : (a :: b :: l).drop 2 = l := rfl

/-- Taking one from a cons. -/
theorem take_one_cons (a : Char) (l : List Char) : (a :: l).take 1 = [a] := rfl

/-- Dropping one from a cons. -/
theorem drop_one_cons (a : Char) (l : List Char) : (a :: l).drop 1 = l := rfl

/-- A two-byte take with a different head is a different pair. -/
theorem take_two_ne_head (a : Char) (l : List Char) (b c : Char) (hne : a ≠ b) :
    (a :: l).take 2 ≠ [b, c] := by
  intro h
  have h2 : (a :: l).take 2 = a :: l.take 1 := rfl
  rw [h2] at h
  injection h with h3
  exact hne h3

/-- One step of the skip rule consumes exactly one leading chunk. -/
theorem skipStepLen_chunk (w : List Char) (hw : SkipChunk w) (rest : List Char) :
    skipStepLen (w ++ rest) = some w.length := by
  rcases hw with ⟨c, rfl, hc⟩ | ⟨mark, body, term, rfl, hmark, hbody, hterm⟩ |
    ⟨body, rfl, hbody⟩
  · rw [List.singleton_append, skipStepLen, if_pos hc]
    simp
  · rcases hmark with rfl | rfl
    · rcases hterm with rfl | rfl
      · have heq : (['/', '/'] ++ body ++ [lfChar]) ++ rest
            = '/' :: '/' :: (body ++ lfChar :: rest) := by simp
        have hline : lineCommentLen ('/' :: '/' :: (body ++ lfChar :: rest))
            = some (2 + (body.length + 1)) := by
          rw [lineCommentLen, if_pos (take_two_cons _ _ _), drop_two_cons,
            lineBodyLen_lf body hbody rest]
        rw [heq, skipStepLen, if_neg (by decide), hline]
        simp
        omega
      · have heq : (['/', '/'] ++ body ++ [crChar, lfChar]) ++ rest
            = '/' :: '/' :: (body ++ crChar :: lfChar :: rest) := by simp
        have hline : lineCommentLen ('/' :: '/' :: (body ++ crChar :: lfChar :: rest))
            = some (2 + (body.length + 2)) := by
          rw [lineCommentLen, if_pos (take_two_cons _ _ _), drop_two_cons,
            lineBodyLen_crlf body hbody rest]
        rw [heq, skipStepLen, if_neg (by decide), hline]
        simp
        omega
    · rcases hterm with rfl | rfl
      · have heq : ([hashChar] ++ body ++ [lfChar]) ++ rest
            = hashChar :: (body ++ lfChar :: rest) := by simp
        have hline : lineCommentLen (hashChar :: (body ++ lfChar :: rest))
            = some (1 + (body.length + 1)) := by
          rw [lineCommentLen, if_neg (take_two_ne_head _ _ _ _ (by decide)),
            if_pos (take_one_cons _ _), drop_one_cons,
            lineBodyLen_lf body hbody rest]
        rw [heq, skipStepLen, if_neg (by decide), hline]
        simp
        omega
      · have heq : ([hashChar] ++ body ++ [crChar, lfChar]) ++ rest
            = hashChar :: (body ++ crChar :: lfChar :: rest) := by simp
        have hline : lineCommentLen (hashChar :: (body ++ crChar :: lfChar :: rest))
            = some (1 + (body.length + 2)) := by
          rw [lineCommentLen, if_neg (take_two_ne_head _ _ _ _ (by decide)),
            if_pos (take_one_cons _ _), drop_one_cons,
            lineBodyLen_crlf body hbody rest]
        rw [heq, skipStepLen, if_neg (by decide), hline]
        simp
        omega
  · have heq : (['/', '*'] ++ body ++ ['*', '/']) ++ rest
        = '/' :: '*' :: (body ++ '*' :: '/' :: rest) := by simp
    have hline : lineCommentLen ('/' :: '*' :: (body ++ '*' :: '/' :: rest)) = none := by
      rw [lineCommentLen, if_neg (by rw [take_two_cons]; decide),
        if_neg (by rw [take_one_cons]; decide)]
    have hblock : blockCommentLen ('/' :: '*' :: (body ++ '*' :: '/' :: rest))
        = some (body.length + 2 + 2) := by
      rw [blockCommentLen, if_pos (take_two_cons _ _ _), drop_two_cons,
        untilStarSlash_closed body hbody rest]
      rfl
    rw [heq, skipStepLen, if_neg (by decide), hline, hblock]
    simp
    try omega

end TaguaParser

namespace TaguaParser

/-- The skip count does not depend on the fuel once the fuel covers the
input length. -/
theorem skipCountGo_stable (n : Nat) :
    ∀ (m : Nat) (l : List Char), l.length ≤ n → l.length ≤ m →
      skipCountGo n l = skipCountGo m l := by
  induction n with
  | zero =>
    intro m l hn _
    have : l = [] := List.eq_nil_of_length_eq_zero (Nat.le_zero.mp hn)
    subst this
    cases m with
    | zero => rfl
    | succ m2 => simp [skipCountGo, skipStepLen]
  | succ n2 ih =>
    intro m l hn hm
    cases m with
    | zero =>
      have : l = [] := List.eq_nil_of_length_eq_zero (Nat.le_zero.mp hm)
      subst this
      simp [skipCountGo, skipStepLen]
    | succ m2 =>
      cases hs : skipStepLen l with
      | none => simp only [skipCountGo, hs]
      | some k =>
        simp only [skipCountGo, hs]
        by_cases hk : k = 0
        · rw [if_pos hk, if_pos hk]
        · rw [if_neg hk, if_neg hk]
          have hb := skipStepLen_bounds l k hs
          have hlen : (l.drop k).length = l.length - k := List.length_drop _ _
          rw [ih m2 (l.drop k) (by omega) (by omega)]

/-- The skip rule consumes a leading chunk entirely and continues after
it. -/
theorem skipCount_chunk (w : List Char) (hw : SkipChunk w) (rest : List Char) :
    skipCount (w ++ rest) = w.length + skipCount rest := by
  have hstep := skipStepLen_chunk w hw rest
  have hwpos : 0 < w.length := (skipStepLen_bounds _ _ hstep).1
  have hlen : (w ++ rest).length = w.length + rest.length := List.length_append _ _
  unfold skipCount
  rw [hlen]
  cases hN : w.length + rest.length with
  | zero => omega
  | succ nn =>
    simp only [skipCountGo, hstep]
    rw [if_neg (by omega)]
    have hdrop : (w ++ rest).drop w.length = rest := List.drop_left _ _
    rw [hdrop]
    rw [skipCountGo_stable nn rest.length rest (by omega) (by omega)]

/-- The skip rule consumes every skippable prefix entirely. -/
theorem skipCount_skippable (chunks : List (List Char))
    (hc : ∀ c ∈ chunks, SkipChunk c) (rest : List Char) :
    skipCount (chunks.flatten ++ rest)
      = chunks.flatten.length + skipCount rest := by
  induction chunks with
  | nil => simp
  | cons c cs ih =>
    have h1 : (c :: cs).flatten ++ rest = c ++ (cs.flatten ++ rest) := by
      simp
    rw [h1, skipCount_chunk c (hc c (by simp)) _,
      ih (fun x hx => hc x (by simp [hx]))]
    simp
    omega

end TaguaParser

namespace TaguaParser

/-- `tag!` is position-uniform: its result depends on the input bytes
only, up to span positions. -/
theorem tag_uniform (t : List Char) :
    Uniform (fun a b : Span => a.bytes = b.bytes) (ptag t) := by
  intro s1 s2 hb
  unfold ptag
  rw [hb]
  cases compareBytes s2.bytes t with
  | ok =>
    refine ⟨?_, rfl⟩
    simp [Span.dropBytes, hb]
  | incomplete => simp [ResultRel]
  | mismatch => simp [ResultRel, hb]

/-- C9: for every position-uniform rule wrapped in `first!` and every
prefix made of valid whitespace and comment chunks, parsing the
prefixed input and parsing the unprefixed input produce related
results: the same shape, the same remaining/location bytes and outputs
related by the chosen output relation — only span positions may
differ. -/
theorem C9_first_skip {α : Type} (E : α → α → Prop) (f : Parser α)
    (hu : Uniform E f) (w rest : List Char) (hw : Skippable w)
    (p1 p2 : Span) (h1 : p1.bytes = w ++ rest) (h2 : p2.bytes = rest) :
    ResultRel E (pfirst f p1) (pfirst f p2) := by
  have hbytes : (skipSpan p1).bytes = (skipSpan p2).bytes := by
    obtain ⟨chunks, hflat, hch⟩ := hw
    have h1' : p1.bytes = chunks.flatten ++ rest := by rw [h1, hflat]
    show (p1.dropBytes (skipCount p1.bytes)).bytes
        = (p2.dropBytes (skipCount p2.bytes)).bytes
    simp only [Span.dropBytes]
    rw [h1', h2, skipCount_skippable chunks hch rest]
    rw [List.drop_append]
  exact hu _ _ hbytes

/-- Concrete instance of C9 on the repository's own example: a `tag`
for `hello` behind `first!` gives related results on the input with a
delimited-comment prefix and on the bare input. -/
theorem C9_first_skip_witness :
    ResultRel (fun a b : Span => a.bytes = b.bytes)
      (pfirst (ptag (("hello").data)) (mkSpan (("/* foo */hello").data)))
      (pfirst (ptag (("hello").data)) (mkSpan (("hello").data))) :=
  C9_first_skip (fun a b : Span => a.bytes = b.bytes)
    (ptag (("hello").data)) (tag_uniform _)
    (("/* foo */").data) (("hello").data)
    ⟨[("/* foo */").data], by simp,
      by
        intro c hc
        simp at hc
        subst hc
        refine Or.inr (Or.inr ⟨(" foo ").data, by decide, by decide⟩)⟩
    (mkSpan (("/* foo */hello").data)) (mkSpan (("hello").data))
    (by decide) rfl

end TaguaParser
